import Mathlib

/-! # Matrix user-directory search filter: model and properties

A shallow embedding of `matrixsearchfilter.go`, a reverse-proxy middleware that
buffers the response of the Matrix user-directory search endpoint, drops the
records whose `user_id` the configured regular expression does not match and
re-emits the body.

Layout of the development:

* bytes and UTF-8 (`unicode/utf8`),
* the JSON codec for `MatrixSearchResult` (`encoding/json`),
* regular expressions (`regexp`),
* HTTP headers, requests and response sinks (`net/http`),
* the plugin itself: `New`, `filterResponse`, `responseWriter`, `ServeHTTP`,
* the properties.

The plugin's own functions are transcribed statement by statement.  The Go
standard library is not part of the repository; the fragments the plugin calls
are modelled here from their documented behaviour, and every modelling choice
is recorded next to the definition it concerns.
-/

namespace MatrixSearchFilter

/-- Decidable equality of Go results `(value, error)`. -/
instance instDecidableEqExcept {ε α : Type} [DecidableEq ε] [DecidableEq α] :
    DecidableEq (Except ε α)
  | Except.ok a, Except.ok b =>
    if h : a = b then isTrue (by rw [h]) else isFalse (fun h1 => h (by injection h1))
  | Except.error a, Except.error b =>
    if h : a = b then isTrue (by rw [h]) else isFalse (fun h1 => h (by injection h1))
  | Except.ok _, Except.error _ => isFalse (fun h => by cases h)
  | Except.error _, Except.ok _ => isFalse (fun h => by cases h)

/-! ## Bytes and UTF-8 -/

/-- A Go `[]byte`. -/
abbrev Bytes := List UInt8

/-- The Go `utf8.RuneError`, U+FFFD. -/
def runeError : Char := Char.ofNat 0xFFFD

/-- The UTF-8 encoding of the scalar value `n`, as byte values. -/
def encodeScalar (n : Nat) : List Nat :=
  if n < 0x80 then [n]
  else if n < 0x800 then [0xC0 + n / 64, 0x80 + n % 64]
  else if n < 0x10000 then [0xE0 + n / 4096, 0x80 + n / 64 % 64, 0x80 + n % 64]
  else [0xF0 + n / 262144, 0x80 + n / 4096 % 64, 0x80 + n / 64 % 64, 0x80 + n % 64]

/-- The Go `utf8.AppendRune` for a valid scalar value, as byte values. -/
def encodeRune (c : Char) : List Nat := encodeScalar c.toNat

/-- Continuation byte `0x80..0xBF`. -/
def isCont (b : Nat) : Bool := decide (0x80 ≤ b) && decide (b ≤ 0xBF)

/-- The Go `utf8.DecodeRune`: the first rune of a non-empty byte sequence and
the number of bytes it occupies.  Anything that is not a well-formed, shortest
form encoding of a scalar value yields `(RuneError, 1)`.  The accepted range of
the second byte depends on the first one, as in Go's `acceptRanges` table. -/
def decodeRune : List Nat → Char × Nat
  | [] => (runeError, 0)
  | b0 :: rest =>
    if b0 < 0x80 then (Char.ofNat b0, 1)
    else if 0xC2 ≤ b0 ∧ b0 ≤ 0xDF then
      match rest with
      | b1 :: _ =>
        if isCont b1 then (Char.ofNat ((b0 - 0xC0) * 64 + (b1 - 0x80)), 2)
        else (runeError, 1)
      | _ => (runeError, 1)
    else if 0xE0 ≤ b0 ∧ b0 ≤ 0xEF then
      match rest with
      | b1 :: b2 :: _ =>
        let lo := if b0 = 0xE0 then 0xA0 else 0x80
        let hi := if b0 = 0xED then 0x9F else 0xBF
        if lo ≤ b1 ∧ b1 ≤ hi ∧ isCont b2 then
          (Char.ofNat ((b0 - 0xE0) * 4096 + (b1 - 0x80) * 64 + (b2 - 0x80)), 3)
        else (runeError, 1)
      | _ => (runeError, 1)
    else if 0xF0 ≤ b0 ∧ b0 ≤ 0xF4 then
      match rest with
      | b1 :: b2 :: b3 :: _ =>
        let lo := if b0 = 0xF0 then 0x90 else 0x80
        let hi := if b0 = 0xF4 then 0x8F else 0xBF
        if lo ≤ b1 ∧ b1 ≤ hi ∧ isCont b2 ∧ isCont b3 then
          (Char.ofNat ((b0 - 0xF0) * 262144 + (b1 - 0x80) * 4096 + (b2 - 0x80) * 64
            + (b3 - 0x80)), 4)
        else (runeError, 1)
      | _ => (runeError, 1)
    else (runeError, 1)

/-- Decode a byte sequence rune by rune with `decodeRune`, every ill-formed byte
becoming one U+FFFD.  The fuel is the number of bytes still to be read; each
step consumes at least one. -/
def decodeRunes : Nat → List Nat → List Char
  | 0, _ => []
  | _, [] => []
  | fuel + 1, b :: bs =>
    let r := decodeRune (b :: bs)
    r.1 :: decodeRunes fuel ((b :: bs).drop r.2)

/-- The runes of a byte string, ill-formed bytes replaced by U+FFFD. -/
def utf8DecodeLossy (bs : Bytes) : List Char :=
  decodeRunes bs.length (bs.map UInt8.toNat)

/-- The UTF-8 encoding of a sequence of runes. -/
def utf8Encode (cs : List Char) : Bytes :=
  (cs.flatMap encodeRune).map UInt8.ofNat

/-- The bytes of a string constant. -/
def bytesOf (s : String) : Bytes := utf8Encode s.data


/-! ## The plugin's data types -/

/-- The Go `MatrixUser`: one record of a user-directory search result.  A string
that `encoding/json` stored into a field is always well-formed UTF-8, so the
fields are sequences of Unicode scalar values. -/
structure MatrixUser where
  AvatarURL : String
  DisplayName : String
  UserID : String
  deriving DecidableEq, Repr

/-- The Go `MatrixSearchResult`.  `Results` is a Go slice as far as the plugin
can observe it: `none` is the nil slice, `some xs` a non-nil slice whose
elements `s[0:len(s)]` are `xs`. -/
structure MatrixSearchResult where
  Limited : Bool
  Results : Option (List MatrixUser)
  deriving DecidableEq, Repr

/-- The zero value of `MatrixUser`. -/
def MatrixUser.zero : MatrixUser := ⟨"", "", ""⟩

/-- The zero value of `MatrixSearchResult` (`var searchRes MatrixSearchResult`). -/
def MatrixSearchResult.zero : MatrixSearchResult := ⟨false, none⟩

/-! ## JSON values and the scanner (`encoding/json`)

`json.Unmarshal` first checks that the whole input is one well-formed JSON
value (`checkValid`) and then stores it into the target.  The model parses the
input into a `JValue` (the well-formedness check) and then stores the `JValue`
into the struct (`storeSearchResult`).  Go works on bytes and converts to runes
only inside string literals, replacing ill-formed bytes by U+FFFD; outside a
string literal every non-ASCII byte is a syntax error, and so is every
non-ASCII rune here.  Decoding the whole input with `utf8DecodeLossy` first and
scanning runes therefore accepts the same inputs with the same result. -/

/-- A parsed JSON value.  A number keeps no value: no field of the plugin's
structs is numeric, a number is either skipped or a type error. -/
inductive JValue where
  | null
  | bool (b : Bool)
  | number
  | string (s : List Char)
  | array (elems : List JValue)
  | object (members : List (List Char × JValue))

/-- The errors of `json.Unmarshal`: `*json.SyntaxError` and
`*json.UnmarshalTypeError`. -/
inductive UnmarshalError where
  | syntaxError
  | typeError
  deriving DecidableEq, Repr

/-- The scanner's `isSpace`. -/
def isSpace (c : Char) : Bool := c = ' ' || c = '\t' || c = '\r' || c = '\n'

/-- Skip insignificant white space. -/
def skipSpace : List Char → List Char
  | [] => []
  | c :: cs => if isSpace c then skipSpace cs else c :: cs

/-- The value of a hexadecimal digit, either case. -/
def hexVal (c : Char) : Option Nat :=
  let n := c.toNat
  if 48 ≤ n ∧ n ≤ 57 then some (n - 48)
  else if 97 ≤ n ∧ n ≤ 102 then some (n - 87)
  else if 65 ≤ n ∧ n ≤ 70 then some (n - 55)
  else none

/-- The Go `getu4`, on the four characters after a backslash and `u`. -/
def hex4 (a b c d : Char) : Option Nat :=
  match hexVal a, hexVal b, hexVal c, hexVal d with
  | some x, some y, some z, some w => some (((x * 16 + y) * 16 + z) * 16 + w)
  | _, _, _, _ => none

/-- The single-character escapes the scanner accepts after a backslash. -/
def unescape (c : Char) : Option Char :=
  if c = '\"' then some '\"'
  else if c = '\\' then some '\\'
  else if c = '/' then some '/'
  else if c = 'b' then some (Char.ofNat 8)
  else if c = 'f' then some (Char.ofNat 12)
  else if c = 'n' then some '\n'
  else if c = 'r' then some '\r'
  else if c = 't' then some '\t'
  else none

/-- One item of a string literal: a rune, or the code unit of a `\uXXXX`. -/
inductive StrUnit where
  | rune (c : Char)
  | u16 (n : Nat)
  deriving DecidableEq, Repr

/-- Scan a string literal after its opening quote up to the closing quote.
Control characters below U+0020 are rejected, a backslash must start one of
the escapes of `unescape` or a `\u` with four hexadecimal digits. -/
def scanString : List Char → Option (List StrUnit × List Char)
  | [] => none
  | c :: rest =>
    if c = '\"' then some ([], rest)
    else if c = '\\' then
      match rest with
      | [] => none
      | e :: rest1 =>
        if e = 'u' then
          match rest1 with
          | a :: b :: c2 :: d :: rest2 =>
            match hex4 a b c2 d with
            | some n =>
              match scanString rest2 with
              | some (us, r) => some (StrUnit.u16 n :: us, r)
              | none => none
            | none => none
          | _ => none
        else
          match unescape e with
          | some ch =>
            match scanString rest1 with
            | some (us, r) => some (StrUnit.rune ch :: us, r)
            | none => none
          | none => none
    else if c.toNat < 0x20 then none
    else
      match scanString rest with
      | some (us, r) => some (StrUnit.rune c :: us, r)
      | none => none

/-- The rune of a lone `\uXXXX`: U+FFFD for a surrogate code unit. -/
def runeOfU16 (n : Nat) : Char :=
  if 0xD800 ≤ n ∧ n < 0xE000 then runeError else Char.ofNat n

/-- The Go `unquote` on the scanned items: a high surrogate escape directly
followed by a low surrogate escape is one rune (`utf16.DecodeRune`), any other
surrogate escape is U+FFFD. -/
def joinUnits : List StrUnit → List Char
  | [] => []
  | StrUnit.rune c :: us => c :: joinUnits us
  | StrUnit.u16 hi :: StrUnit.u16 lo :: us =>
    if 0xD800 ≤ hi ∧ hi < 0xDC00 ∧ 0xDC00 ≤ lo ∧ lo < 0xE000 then
      Char.ofNat ((hi - 0xD800) * 1024 + (lo - 0xDC00) + 0x10000) :: joinUnits us
    else runeOfU16 hi :: joinUnits (StrUnit.u16 lo :: us)
  | StrUnit.u16 hi :: us => runeOfU16 hi :: joinUnits us

/-- A string literal after its opening quote: its value and the rest. -/
def parseString (cs : List Char) : Option (List Char × List Char) :=
  match scanString cs with
  | some (us, r) => some (joinUnits us, r)
  | none => none

/-- Decimal digit. -/
def isDigit (c : Char) : Bool := decide (48 ≤ c.toNat) && decide (c.toNat ≤ 57)

/-- Skip a possibly empty run of digits. -/
def skipDigits : List Char → List Char
  | [] => []
  | c :: cs => if isDigit c then skipDigits cs else c :: cs

/-- At least one digit, then any more. -/
def scanDigits1 : List Char → Option (List Char)
  | [] => none
  | c :: cs => if isDigit c then some (skipDigits cs) else none

/-- The exponent part of a number, if one follows (scanner states `stateE`,
`stateESign`, `stateE0`). -/
def scanExponent : List Char → Option (List Char)
  | [] => some []
  | c :: cs =>
    if c = 'e' ∨ c = 'E' then
      match cs with
      | [] => none
      | s :: cs1 => if s = '+' ∨ s = '-' then scanDigits1 cs1 else scanDigits1 (s :: cs1)
    else some (c :: cs)

/-- The fraction and exponent parts of a number, if they follow (scanner
states `state0` and `state1` after the integer part). -/
def scanFraction : List Char → Option (List Char)
  | [] => some []
  | c :: cs =>
    if c = '.' then
      match scanDigits1 cs with
      | some r => scanExponent r
      | none => none
    else scanExponent (c :: cs)

/-- The integer part of a number after an optional minus sign: a single `0`,
or a non-zero digit followed by digits. -/
def scanInteger : List Char → Option (List Char)
  | [] => none
  | c :: cs =>
    if c = '0' then scanFraction cs
    else if isDigit c then scanFraction (skipDigits cs)
    else none

/-- A number literal: the rest of the input after it. -/
def scanNumber : List Char → Option (List Char)
  | [] => none
  | c :: cs => if c = '-' then scanInteger cs else scanInteger (c :: cs)

/-- The scanner's `maxNestingDepth`. -/
def maxNestingDepth : Nat := 10000

/-- A value that is not an array or object: a string, `true`, `false`, `null`
or a number. -/
def scanLiteral : List Char → Option (JValue × List Char)
  | [] => none
  | c :: rest =>
    if c = '\"' then
      match parseString rest with
      | some (s, r) => some (JValue.string s, r)
      | none => none
    else if c = 't' then
      if rest.take 3 = ['r', 'u', 'e'] then some (JValue.bool true, rest.drop 3) else none
    else if c = 'f' then
      if rest.take 4 = ['a', 'l', 's', 'e'] then some (JValue.bool false, rest.drop 4) else none
    else if c = 'n' then
      if rest.take 3 = ['u', 'l', 'l'] then some (JValue.null, rest.drop 3) else none
    else
      match scanNumber (c :: rest) with
      | some r => some (JValue.number, r)
      | none => none

mutual
/-- One JSON value at the head of the input (which does not start with white
space), and the rest of the input.  `depth` is the number of arrays and objects
currently open; opening one more than `maxNestingDepth` is an error.  The fuel
bounds the number of nested calls. -/
def parseValue : Nat → Nat → List Char → Option (JValue × List Char)
  | 0, _, _ => none
  | fuel + 1, depth, cs =>
    if cs.head? = some '{' then
      if maxNestingDepth ≤ depth then none
      else if (skipSpace cs.tail).head? = some '}' then
        some (JValue.object [], (skipSpace cs.tail).tail)
      else
        match parseMembers fuel (depth + 1) (skipSpace cs.tail) with
        | some (ms, r) => some (JValue.object ms, r)
        | none => none
    else if cs.head? = some '[' then
      if maxNestingDepth ≤ depth then none
      else if (skipSpace cs.tail).head? = some ']' then
        some (JValue.array [], (skipSpace cs.tail).tail)
      else
        match parseElems fuel (depth + 1) (skipSpace cs.tail) with
        | some (vs, r) => some (JValue.array vs, r)
        | none => none
    else scanLiteral cs
/-- The elements of a non-empty array, the input standing at the first
element, up to and including the closing bracket. -/
def parseElems : Nat → Nat → List Char → Option (List JValue × List Char)
  | 0, _, _ => none
  | fuel + 1, depth, cs =>
    match parseValue fuel depth cs with
    | none => none
    | some (v, r) =>
      if (skipSpace r).head? = some ',' then
        match parseElems fuel depth (skipSpace (skipSpace r).tail) with
        | some (vs, r2) => some (v :: vs, r2)
        | none => none
      else if (skipSpace r).head? = some ']' then some ([v], (skipSpace r).tail)
      else none
/-- The members of a non-empty object, the input standing at the first key, up
to and including the closing brace. -/
def parseMembers : Nat → Nat → List Char → Option (List (List Char × JValue) × List Char)
  | 0, _, _ => none
  | fuel + 1, depth, cs =>
    if cs.head? = some '\"' then
      match parseString cs.tail with
      | none => none
      | some (k, r) =>
        if (skipSpace r).head? = some ':' then
          match parseValue fuel depth (skipSpace (skipSpace r).tail) with
          | none => none
          | some (v, r2) =>
            if (skipSpace r2).head? = some ',' then
              match parseMembers fuel depth (skipSpace (skipSpace r2).tail) with
              | some (ms, r4) => some ((k, v) :: ms, r4)
              | none => none
            else if (skipSpace r2).head? = some '}' then some ([(k, v)], (skipSpace r2).tail)
            else none
        else none
    else none
end

/-- The whole input as one JSON value surrounded by optional white space
(`checkValid`).  Every nested call of the parser consumes at least one
character every second step, so twice the length of the input is enough
fuel. -/
def parseDocument (cs : List Char) : Option JValue :=
  match parseValue (2 * cs.length + 2) 0 (skipSpace cs) with
  | some (v, r) => if skipSpace r = [] then some v else none
  | none => none

/-! ## Storing a JSON value into `MatrixSearchResult` (`json.Unmarshal`)

A JSON literal of the wrong kind for its target is an `UnmarshalTypeError`;
Go records the first such error, keeps decoding and returns the error at the
end, so the call fails exactly when some value has the wrong kind.  `null`
leaves a bool, string or struct target unchanged and sets a slice to nil.  Keys
that name no field are skipped. -/

/-- The rune-wise case folding of `foldName` as far as it can produce an ASCII
letter: lower case ASCII letters, U+017F (long s) and U+212A (Kelvin sign) are
the only runes whose fold orbit contains an ASCII letter.  Other non-ASCII
runes fold among themselves, which no comparison with a field name observes. -/
def foldRune (c : Char) : Char :=
  if 97 ≤ c.toNat ∧ c.toNat ≤ 122 then Char.ofNat (c.toNat - 32)
  else if c.toNat = 0x17F then 'S'
  else if c.toNat = 0x212A then 'K'
  else c

/-- The Go `foldName`. -/
def foldName (k : List Char) : List Char := k.map foldRune

/-- Whether an object key selects the field with JSON name `name`: an exact
match, else a case-insensitive one.  No two field names of one struct are
equal up to case, so at most one field is selected. -/
def keyIs (name : String) (key : List Char) : Bool :=
  decide (key = name.data) || decide (foldName key = foldName name.data)

/-- Store a JSON value into a `string` field. -/
def storeString (old : String) : JValue → Except UnmarshalError String
  | JValue.string s => Except.ok (String.mk s)
  | JValue.null => Except.ok old
  | _ => Except.error UnmarshalError.typeError

/-- Store a JSON value into a `bool` field. -/
def storeBool (old : Bool) : JValue → Except UnmarshalError Bool
  | JValue.bool b => Except.ok b
  | JValue.null => Except.ok old
  | _ => Except.error UnmarshalError.typeError

/-- Store the members of a JSON object into a `MatrixUser`, in input order; a
later member for the same field overwrites an earlier one. -/
def storeUserMembers (u : MatrixUser) : List (List Char × JValue) → Except UnmarshalError MatrixUser
  | [] => Except.ok u
  | (k, v) :: ms =>
    if keyIs "avatar_url" k then
      match storeString u.AvatarURL v with
      | Except.ok s => storeUserMembers { u with AvatarURL := s } ms
      | Except.error e => Except.error e
    else if keyIs "display_name" k then
      match storeString u.DisplayName v with
      | Except.ok s => storeUserMembers { u with DisplayName := s } ms
      | Except.error e => Except.error e
    else if keyIs "user_id" k then
      match storeString u.UserID v with
      | Except.ok s => storeUserMembers { u with UserID := s } ms
      | Except.error e => Except.error e
    else storeUserMembers u ms

/-- Store a JSON value into a `MatrixUser` that currently holds `old`. -/
def storeUser (old : MatrixUser) : JValue → Except UnmarshalError MatrixUser
  | JValue.object ms => storeUserMembers old ms
  | JValue.null => Except.ok old
  | _ => Except.error UnmarshalError.typeError

/-- A `[]MatrixUser` while it is being decoded: besides the visible elements
the decoder can reach the elements of the backing array between length and
capacity, which a repeated `results` key brings back into view. -/
structure SliceState where
  isNil : Bool
  elems : List MatrixUser
  spare : List MatrixUser

/-- The nil slice. -/
def SliceState.nil : SliceState := ⟨true, [], []⟩

/-- Store the elements of a JSON array into consecutive slice elements.  The
element at index `i` is decoded into whatever the backing array holds at `i`
(the zero value beyond the capacity, where the slice is grown). -/
def storeElems : List MatrixUser → List JValue → Except UnmarshalError (List MatrixUser)
  | _, [] => Except.ok []
  | backing, v :: vs =>
    match storeUser (backing.headD MatrixUser.zero) v with
    | Except.error e => Except.error e
    | Except.ok u =>
      match storeElems backing.tail vs with
      | Except.error e => Except.error e
      | Except.ok us => Except.ok (u :: us)

/-- Store a JSON value into the `Results` slice.  An empty array makes a fresh
empty non-nil slice, `null` the nil slice. -/
def storeResults (old : SliceState) : JValue → Except UnmarshalError SliceState
  | JValue.array [] => Except.ok ⟨false, [], []⟩
  | JValue.array (v :: vs) =>
    match storeElems (old.elems ++ old.spare) (v :: vs) with
    | Except.ok us => Except.ok ⟨false, us, (old.elems ++ old.spare).drop (v :: vs).length⟩
    | Except.error e => Except.error e
  | JValue.null => Except.ok SliceState.nil
  | _ => Except.error UnmarshalError.typeError

/-- Store the members of a JSON object into a `MatrixSearchResult` whose
fields currently hold `limited` and `results`. -/
def storeSearchMembers (limited : Bool) (results : SliceState) :
    List (List Char × JValue) → Except UnmarshalError (Bool × SliceState)
  | [] => Except.ok (limited, results)
  | (k, v) :: ms =>
    if keyIs "limited" k then
      match storeBool limited v with
      | Except.ok b => storeSearchMembers b results ms
      | Except.error e => Except.error e
    else if keyIs "results" k then
      match storeResults results v with
      | Except.ok r => storeSearchMembers limited r ms
      | Except.error e => Except.error e
    else storeSearchMembers limited results ms

/-- Store a JSON value into a zero `MatrixSearchResult`. -/
def storeSearchResult : JValue → Except UnmarshalError MatrixSearchResult
  | JValue.object ms =>
    match storeSearchMembers false SliceState.nil ms with
    | Except.ok (b, r) => Except.ok ⟨b, if r.isNil then none else some r.elems⟩
    | Except.error e => Except.error e
  | JValue.null => Except.ok MatrixSearchResult.zero
  | _ => Except.error UnmarshalError.typeError

/-- The rune-level part of `json.Unmarshal(data, &searchRes)`. -/
def unmarshalRunes (cs : List Char) : Except UnmarshalError MatrixSearchResult :=
  match parseDocument cs with
  | some v => storeSearchResult v
  | none => Except.error UnmarshalError.syntaxError

/-- The Go `json.Unmarshal(data, &searchRes)` for a freshly declared
`searchRes`. -/
def Unmarshal (data : Bytes) : Except UnmarshalError MatrixSearchResult :=
  unmarshalRunes (utf8DecodeLossy data)

/-! ## Encoding `MatrixSearchResult` (`json.Marshal`) -/

/-- Lower case hexadecimal digit. -/
def hexDigit (n : Nat) : Char :=
  if n < 10 then Char.ofNat (48 + n) else Char.ofNat (87 + n)

/-- The encoding of one rune inside a string literal (`appendString` with HTML
escaping, which `json.Marshal` always uses): the quote and the backslash get a
backslash, backspace, form feed, line feed, carriage return and tab their short
escape (Go 1.22 and later; earlier releases write the first two as `\u0008` and
`\u000c`, which decode to the same runes), the other control characters and
`<`, `>`, `&` a `\u00XX`, U+2028 and U+2029 a `\u202X`, every other rune itself. -/
def escapeRune (c : Char) : List Char :=
  let n := c.toNat
  if c = '\\' ∨ c = '\"' then ['\\', c]
  else if n = 8 then ['\\', 'b']
  else if n = 12 then ['\\', 'f']
  else if n = 10 then ['\\', 'n']
  else if n = 13 then ['\\', 'r']
  else if n = 9 then ['\\', 't']
  else if n < 0x20 ∨ c = '<' ∨ c = '>' ∨ c = '&' then
    ['\\', 'u', '0', '0', hexDigit (n / 16), hexDigit (n % 16)]
  else if n = 0x2028 ∨ n = 0x2029 then ['\\', 'u', '2', '0', '2', hexDigit (n % 16)]
  else [c]

/-- The Go `appendString`: a quoted, escaped string literal. -/
def encodeString (s : String) : List Char :=
  '\"' :: (s.data.flatMap escapeRune ++ ['\"'])

/-- An `omitempty` string field: nothing when the string is empty, else the
key, a colon, the value and a comma (a field always follows). -/
def encodeOmitEmpty (name : String) (s : String) : List Char :=
  if s = "" then [] else '\"' :: (name.data ++ '\"' :: ':' :: (encodeString s ++ [',']))

/-- The encoding of a `MatrixUser`: the fields in declaration order. -/
def encodeUser (u : MatrixUser) : List Char :=
  '{' :: (encodeOmitEmpty "avatar_url" u.AvatarURL ++ (encodeOmitEmpty "display_name" u.DisplayName
    ++ ("\"user_id\":".data ++ (encodeString u.UserID ++ ['}']))))

/-- The elements of a non-empty array after the opening bracket. -/
def encodeUsers : MatrixUser → List MatrixUser → List Char
  | u, [] => encodeUser u ++ [']']
  | u, v :: vs => encodeUser u ++ ',' :: encodeUsers v vs

/-- The encoding of a `[]MatrixUser`: `null` for the nil slice. -/
def encodeResults : Option (List MatrixUser) → List Char
  | none => "null".data
  | some [] => "[]".data
  | some (u :: us) => '[' :: encodeUsers u us

/-- The encoding of a `bool`. -/
def encodeBool (b : Bool) : List Char := if b then "true".data else "false".data

/-- The runes of `json.Marshal(searchRes)`. -/
def marshalRunes (sr : MatrixSearchResult) : List Char :=
  "\x7b\"limited\":".data ++ (encodeBool sr.Limited ++ (",\"results\":".data
    ++ (encodeResults sr.Results ++ ['}'])))

/-- The errors of `json.Marshal`; none can occur for a struct of bools, strings
and slices. -/
inductive MarshalError where
  | unsupported
  deriving DecidableEq, Repr

/-- The Go `json.Marshal(searchRes)`. -/
def Marshal (sr : MatrixSearchResult) : Except MarshalError Bytes :=
  Except.ok (utf8Encode (marshalRunes sr))

/-! ## Regular expressions (`regexp`)

A compiled pattern is modelled by its syntax tree (the operators of
`regexp/syntax`) together with a matcher that computes, for a position in the
subject, every position at which a match starting there can end.  Go reports
whether a match exists; which of several matches it would prefer plays no part
in `MatchString`.

Every expression of RE2 has a tree of this kind with the same matches
(counted repetition unfolds into the other operators, case folding and named
classes into character classes), so the trees stand for all compiled patterns.

`regexp.Compile` itself is a parameter of `New`.  `compileFragment` gives its
result on a fragment of the pattern language and answers `none` outside of it,
where the model makes no statement. -/

/-- A compiled regular expression. -/
inductive Regexp where
  | emptyMatch
  | literal (c : Char)
  | charClass (negated : Bool) (ranges : List (Char × Char))
  | anyCharNotNL
  | anyChar
  | beginLine
  | endLine
  | beginText
  | endText
  | wordBoundary
  | noWordBoundary
  | capture (a : Regexp)
  | star (a : Regexp)
  | plus (a : Regexp)
  | quest (a : Regexp)
  | concat (a b : Regexp)
  | alternate (a b : Regexp)
  deriving DecidableEq, Repr

/-- A position in the subject: the rune before it, if any, and the runes from
it on. -/
structure Pos where
  prev : Option Char
  rest : List Char
  deriving DecidableEq, Repr

/-- Membership in a list of inclusive rune ranges. -/
def inRanges (c : Char) (ranges : List (Char × Char)) : Bool :=
  ranges.any (fun r => decide (r.1.toNat ≤ c.toNat) && decide (c.toNat ≤ r.2.toNat))

/-- ASCII word character, as used by `\b` and `\w`. -/
def isWordChar (c : Char) : Bool :=
  inRanges c [('0', '9'), ('A', 'Z'), ('a', 'z'), ('_', '_')]

/-- Whether the rune before or after a position is a word character. -/
def isWordAt : Option Char → Bool
  | some c => isWordChar c
  | none => false

/-- Consume one rune satisfying `ok`. -/
def stepRune (ok : Char → Bool) (p : Pos) : List Pos :=
  match p.rest with
  | c :: r => if ok c then [⟨some c, r⟩] else []
  | [] => []

/-- Zero or more rounds of `f`.  A round that consumes nothing leads back to the
same position and is dropped, so every further round shortens the rest of the
subject and `fuel` rounds, one more than its length, reach every end
position. -/
def iterate (f : Pos → List Pos) : Nat → Pos → List Pos
  | 0, p => [p]
  | fuel + 1, p =>
    p :: ((f p).filter (fun q => decide (q.rest.length < p.rest.length))).flatMap
      (iterate f fuel)

/-- Every position at which a match of the expression starting at `p` ends. -/
def Regexp.ends : Regexp → Pos → List Pos
  | Regexp.emptyMatch, p => [p]
  | Regexp.literal c, p => stepRune (fun d => decide (d = c)) p
  | Regexp.charClass neg rs, p => stepRune (fun d => inRanges d rs != neg) p
  | Regexp.anyCharNotNL, p => stepRune (fun d => decide (d ≠ '\n')) p
  | Regexp.anyChar, p => stepRune (fun _ => true) p
  | Regexp.beginLine, p => if p.prev = none ∨ p.prev = some '\n' then [p] else []
  | Regexp.endLine, p => if p.rest = [] ∨ p.rest.head? = some '\n' then [p] else []
  | Regexp.beginText, p => if p.prev = none then [p] else []
  | Regexp.endText, p => if p.rest = [] then [p] else []
  | Regexp.wordBoundary, p => if isWordAt p.prev != isWordAt p.rest.head? then [p] else []
  | Regexp.noWordBoundary, p => if isWordAt p.prev == isWordAt p.rest.head? then [p] else []
  | Regexp.capture a, p => a.ends p
  | Regexp.star a, p => iterate (fun q => a.ends q) (p.rest.length + 1) p
  | Regexp.plus a, p =>
    (a.ends p).flatMap (fun q => iterate (fun q1 => a.ends q1) (q.rest.length + 1) q)
  | Regexp.quest a, p => p :: a.ends p
  | Regexp.concat a b, p => (a.ends p).flatMap (fun q => b.ends q)
  | Regexp.alternate a b, p => a.ends p ++ b.ends p

/-- Whether a match starts at the given position or at a later one. -/
def searchFrom (re : Regexp) : Option Char → List Char → Bool
  | prev, [] => !(re.ends ⟨prev, []⟩).isEmpty
  | prev, c :: r => !(re.ends ⟨prev, c :: r⟩).isEmpty || searchFrom re (some c) r

/-- The Go `(*Regexp).MatchString`: whether the string contains any match of
the expression. -/
def Regexp.MatchString (re : Regexp) (s : String) : Bool :=
  searchFrom re none s.data

/-- Whether the expression matches the string from its first to its last
rune. -/
def Regexp.matchesWhole (re : Regexp) (s : String) : Bool :=
  (re.ends ⟨none, s.data⟩).any (fun q => q.rest.isEmpty)

/-- The error codes of `regexp/syntax`, which `regexp.Compile` returns. -/
inductive CompileError where
  | internalError
  | invalidCharClass
  | invalidCharRange
  | invalidEscape
  | invalidNamedCapture
  | invalidPerlOp
  | invalidRepeatOp
  | invalidRepeatSize
  | invalidUTF8
  | missingBracket
  | missingParen
  | missingRepeatArgument
  | trailingBackslash
  | unexpectedParen
  | nestingDepth
  | large
  deriving DecidableEq, Repr

/-- Why the fragment parser stops: Go rejects the pattern with the given error
code, or the pattern leaves the fragment (or the fuel ran out) and the model
makes no statement. -/
inductive Stop where
  | error (code : CompileError)
  | outside
  deriving DecidableEq, Repr

/-- ASCII letter or digit (`isalnum` of `regexp/syntax`). -/
def isAlnum (c : Char) : Bool :=
  inRanges c [('0', '9'), ('A', 'Z'), ('a', 'z')]

/-- The largest rune. -/
def maxRune : Char := Char.ofNat 0x10FFFF

/-- The Perl classes `\d \D \s \S \w \W` as rune ranges. -/
def perlClass (c : Char) : Option (List (Char × Char)) :=
  if c = 'd' then some [('0', '9')]
  else if c = 'D' then some [(Char.ofNat 0, '/'), (':', maxRune)]
  else if c = 's' then some [('\t', '\n'), (Char.ofNat 12, '\r'), (' ', ' ')]
  else if c = 'S' then
    some [(Char.ofNat 0, Char.ofNat 8), (Char.ofNat 11, Char.ofNat 11), (Char.ofNat 14, Char.ofNat 31),
      ('!', maxRune)]
  else if c = 'w' then some [('0', '9'), ('A', 'Z'), ('a', 'z'), ('_', '_')]
  else if c = 'W' then
    some [(Char.ofNat 0, '/'), (':', '@'), ('[', '^'), (Char.ofNat 96, Char.ofNat 96),
      (Char.ofNat 123, maxRune)]
  else none

/-- The rune denoted by a backslash followed by `c` (`parseEscape`): the
control escapes `\a \f \n \r \t \v`, and any ASCII rune that is not a letter or
digit standing for itself.  Octal and hexadecimal escapes are outside the
fragment; a letter or digit with no meaning is an error. -/
def parseEscape (c : Char) : Except Stop Char :=
  if inRanges c [('0', '7')] ∨ c = 'x' then Except.error Stop.outside
  else if c = 'a' then Except.ok (Char.ofNat 7)
  else if c = 'f' then Except.ok (Char.ofNat 12)
  else if c = 'n' then Except.ok '\n'
  else if c = 'r' then Except.ok '\r'
  else if c = 't' then Except.ok '\t'
  else if c = 'v' then Except.ok (Char.ofNat 11)
  else if c.toNat < 0x80 ∧ isAlnum c = false then Except.ok c
  else Except.error (Stop.error CompileError.invalidEscape)

/-- One rune of a character class, possibly escaped (`parseClassChar`). -/
def parseClassChar : List Char → Except Stop (Char × List Char)
  | [] => Except.error (Stop.error CompileError.missingBracket)
  | c :: rest =>
    if c = '\\' then
      match rest with
      | [] => Except.error (Stop.error CompileError.trailingBackslash)
      | e :: r =>
        match parseEscape e with
        | Except.ok x => Except.ok (x, r)
        | Except.error err => Except.error err
    else Except.ok (c, rest)

/-- The items of a bracket expression after `[` or `[^`, up to and including
the closing bracket (`parseClass`).  A `]` in first position is a literal.  An
item is a Perl class, a single rune or a range `lo-hi` with `lo ≤ hi`; a `-`
that does not stand between two runes is a literal.  Named classes (`[:alpha:]`,
`\p`) are outside the fragment.  Each item consumes at least one rune, the
fuel is the number of runes left. -/
def parseClassItems : Nat → Bool → List Char → Except Stop (List (Char × Char) × List Char)
  | 0, _, _ => Except.error Stop.outside
  | _ + 1, _, [] => Except.error (Stop.error CompileError.missingBracket)
  | fuel + 1, first, c :: rest =>
    if c = ']' ∧ first = false then Except.ok ([], rest)
    else if c = '[' ∧ rest.head? = some ':' then Except.error Stop.outside
    else if c = '\\' ∧ (rest.head? = some 'p' ∨ rest.head? = some 'P') then
      Except.error Stop.outside
    else
      match (if c = '\\' then rest.head?.bind perlClass else none) with
      | some rs =>
        match parseClassItems fuel false rest.tail with
        | Except.ok (more, r) => Except.ok (rs ++ more, r)
        | Except.error err => Except.error err
      | none =>
        match parseClassChar (c :: rest) with
        | Except.error err => Except.error err
        | Except.ok (lo, r1) =>
          match r1 with
          | d :: e :: r2 =>
            if d = '-' ∧ e ≠ ']' then
              match parseClassChar (e :: r2) with
              | Except.error err => Except.error err
              | Except.ok (hi, r3) =>
                if hi.toNat < lo.toNat then
                  Except.error (Stop.error CompileError.invalidCharRange)
                else
                  match parseClassItems fuel false r3 with
                  | Except.ok (more, r) => Except.ok ((lo, hi) :: more, r)
                  | Except.error err => Except.error err
            else
              match parseClassItems fuel false (d :: e :: r2) with
              | Except.ok (more, r) => Except.ok ((lo, lo) :: more, r)
              | Except.error err => Except.error err
          | _ =>
            match parseClassItems fuel false r1 with
            | Except.ok (more, r) => Except.ok ((lo, lo) :: more, r)
            | Except.error err => Except.error err

/-- A bracket expression after its opening `[`. -/
def parseClass (cs : List Char) : Except Stop (Regexp × List Char) :=
  match cs with
  | c :: rest =>
    if c = '^' then
      match parseClassItems (rest.length + 1) true rest with
      | Except.ok (rs, r) => Except.ok (Regexp.charClass true rs, r)
      | Except.error err => Except.error err
    else
      match parseClassItems (cs.length + 1) true cs with
      | Except.ok (rs, r) => Except.ok (Regexp.charClass false rs, r)
      | Except.error err => Except.error err
  | [] => Except.error (Stop.error CompileError.missingBracket)

/-- The repetition operators `*`, `+` and `?`. -/
def isRepeatOp (c : Char) : Bool := c = '*' || c = '+' || c = '?'

/-- The Go `parseInt` of the pattern parser: the runes after a decimal number
without a superfluous leading zero, `none` if no such number stands first. -/
def skipRepeatCount : List Char → Option (List Char)
  | [] => none
  | c :: r =>
    if isDigit c = false then none
    else if c = '0' ∧ (r.head?.map isDigit) = some true then none
    else some (skipDigits r)

/-- Whether the runes after a `\x7b` spell a counted repetition `n\x7d`, `n,\x7d`
or `n,m\x7d` (`parseRepeat`); otherwise the brace is a literal. -/
def looksLikeRepeat (cs : List Char) : Bool :=
  match skipRepeatCount cs with
  | none => false
  | some r =>
    match r with
    | [] => false
    | c :: r1 =>
      if c = '}' then true
      else if c = ',' then
        if r1.head? = some '}' then true
        else
          match skipRepeatCount r1 with
          | some r2 => decide (r2.head? = some '}')
          | none => false
      else false

/-- Apply a repetition operator. -/
def applyRepeat (op : Char) (a : Regexp) : Regexp :=
  if op = '*' then Regexp.star a else if op = '+' then Regexp.plus a else Regexp.quest a

/-- The repetition operator after an atom, if any: `*`, `+` or `?`, optionally
followed by the non-greedy marker `?`, which does not change whether a match
exists.  A second repetition operator directly after the first is an error
(`invalid nested repetition operator`); counted repetition is outside the
fragment. -/
def parseSuffix (a : Regexp) : List Char → Except Stop (Regexp × List Char)
  | [] => Except.ok (a, [])
  | c :: r =>
    if isRepeatOp c then
      let r1 := match r with
        | d :: r2 => if d = '?' then r2 else d :: r2
        | [] => []
      match r1 with
      | d :: r2 =>
        if isRepeatOp d then Except.error (Stop.error CompileError.invalidRepeatOp)
        else if d = '{' ∧ looksLikeRepeat r2 then Except.error Stop.outside
        else Except.ok (applyRepeat c a, r1)
      | [] => Except.ok (applyRepeat c a, [])
    else if c = '{' ∧ looksLikeRepeat r then Except.error Stop.outside
    else Except.ok (a, c :: r)

mutual
/-- An alternation: concatenations separated by `|`, up to a closing
parenthesis or the end of the pattern. -/
def parseAlt : Nat → List Char → Except Stop (Regexp × List Char)
  | 0, _ => Except.error Stop.outside
  | fuel + 1, cs =>
    match parseConcat fuel cs with
    | Except.error err => Except.error err
    | Except.ok (a, r) =>
      match r with
      | c :: r1 =>
        if c = '|' then
          match parseAlt fuel r1 with
          | Except.ok (b, r2) => Except.ok (Regexp.alternate a b, r2)
          | Except.error err => Except.error err
        else Except.ok (a, r)
      | [] => Except.ok (a, [])
/-- A concatenation: repeated atoms up to `|`, a closing parenthesis or the end
of the pattern.  The tree is a chain of `concat` that ends in `emptyMatch`. -/
def parseConcat : Nat → List Char → Except Stop (Regexp × List Char)
  | 0, _ => Except.error Stop.outside
  | _ + 1, [] => Except.ok (Regexp.emptyMatch, [])
  | fuel + 1, c :: rest =>
    if c = '|' ∨ c = ')' then Except.ok (Regexp.emptyMatch, c :: rest)
    else
      match parseAtom fuel (c :: rest) with
      | Except.error err => Except.error err
      | Except.ok (a, r) =>
        match parseSuffix a r with
        | Except.error err => Except.error err
        | Except.ok (p, r1) =>
          match parseConcat fuel r1 with
          | Except.ok (b, r2) => Except.ok (Regexp.concat p b, r2)
          | Except.error err => Except.error err
/-- One atom.  The fragment: a group `( )` or `(?: )`; a bracket expression;
`.` (any rune but line feed); `^` and `$` (begin and end of text, the flags of
`regexp.Compile` being those of Perl without multi-line mode); `\A`, `\z`,
`\b`, `\B`; a Perl class; an escaped rune; any other rune as a literal.  A
repetition operator with nothing to repeat is an error.  Outside the fragment:
flag groups and named groups `(?...)`, `\p`, `\P`, `\C`, `\Q`, octal and
hexadecimal escapes, counted repetition. -/
def parseAtom : Nat → List Char → Except Stop (Regexp × List Char)
  | 0, _ => Except.error Stop.outside
  | _ + 1, [] => Except.error Stop.outside
  | fuel + 1, c :: rest =>
    if c = '(' then
      match rest with
      | '?' :: ':' :: r =>
        match parseAlt fuel r with
        | Except.error err => Except.error err
        | Except.ok (a, r1) =>
          match r1 with
          | d :: r2 =>
            if d = ')' then Except.ok (a, r2)
            else Except.error (Stop.error CompileError.missingParen)
          | [] => Except.error (Stop.error CompileError.missingParen)
      | '?' :: _ => Except.error Stop.outside
      | _ =>
        match parseAlt fuel rest with
        | Except.error err => Except.error err
        | Except.ok (a, r1) =>
          match r1 with
          | d :: r2 =>
            if d = ')' then Except.ok (Regexp.capture a, r2)
            else Except.error (Stop.error CompileError.missingParen)
          | [] => Except.error (Stop.error CompileError.missingParen)
    else if isRepeatOp c then Except.error (Stop.error CompileError.missingRepeatArgument)
    else if c = '[' then parseClass rest
    else if c = '.' then Except.ok (Regexp.anyCharNotNL, rest)
    else if c = '^' then Except.ok (Regexp.beginText, rest)
    else if c = '$' then Except.ok (Regexp.endText, rest)
    else if c = '{' ∧ looksLikeRepeat rest then Except.error Stop.outside
    else if c = '\\' then
      match rest with
      | [] => Except.error (Stop.error CompileError.trailingBackslash)
      | e :: r =>
        if e = 'A' then Except.ok (Regexp.beginText, r)
        else if e = 'z' then Except.ok (Regexp.endText, r)
        else if e = 'b' then Except.ok (Regexp.wordBoundary, r)
        else if e = 'B' then Except.ok (Regexp.noWordBoundary, r)
        else if e = 'C' ∨ e = 'Q' ∨ e = 'p' ∨ e = 'P' then Except.error Stop.outside
        else
          match perlClass e with
          | some rs => Except.ok (Regexp.charClass false rs, r)
          | none =>
            match parseEscape e with
            | Except.ok x => Except.ok (Regexp.literal x, r)
            | Except.error err => Except.error err
    else Except.ok (Regexp.literal c, rest)
end

/-- The longest pattern the fragment covers.  Go limits the nesting depth (to
1000), the size and the number of class runes of an expression
(`ErrNestingDepth`, `ErrLarge`); a pattern this short stays below each limit,
a level of nesting taking at least one rune of the pattern. -/
def maxFragmentLength : Nat := 256

/-- The result of `regexp.Compile` on the fragment described at `parseAtom`:
the tree of the pattern or the error code with which Go rejects it, and `none`
where the model makes no statement (a pattern that leaves the fragment, is
longer than `maxFragmentLength`, or exhausts the fuel).  A closing parenthesis
left over has no opening one. -/
def compileFragment (expr : String) : Option (Except CompileError Regexp) :=
  if maxFragmentLength < expr.data.length then none
  else
    match parseAlt (3 * expr.data.length + 3) expr.data with
    | Except.ok (re, []) => some (Except.ok re)
    | Except.ok (_, c :: _) =>
      if c = ')' then some (Except.error CompileError.unexpectedParen) else none
    | Except.error (Stop.error code) => some (Except.error code)
    | Except.error Stop.outside => none

/-! ## HTTP headers, requests and response sinks (`net/http`) -/

/-- The Go `http.Header`, a `map[string][]string`: the values stored under a
key, `none` when the key is absent.  `Get`, `Set` and `Del` canonicalise their
key; every key the plugin passes is already in canonical form, so the model
takes canonical keys. -/
abbrev Header := String → Option (List String)

/-- The empty header map. -/
def Header.empty : Header := fun _ => none

/-- The Go `Header.Get`: the first value stored under the key, the empty string
when there is none. -/
def Header.Get (h : Header) (key : String) : String :=
  match h key with
  | some (v :: _) => v
  | _ => ""

/-- The Go `Header.Set`. -/
def Header.Set (h : Header) (key value : String) : Header :=
  fun k => if k = key then some [value] else h k

/-- The Go `Header.Del`. -/
def Header.Del (h : Header) (key : String) : Header :=
  fun k => if k = key then none else h k

/-- The parts of an `*http.Request` the plugin reads: `Method`, `URL.Path` and
`Header`. -/
structure Request where
  Method : String
  Path : String
  Header : Header

/-- The real response sink, an `http.ResponseWriter` as the server of `net/http`
implements it.

* `header` is the live map returned by `Header()`.
* `committed` is the final status code and the snapshot of the headers taken
  when the response head is sent: by the first `WriteHeader` with a final
  status, or with status 200 by a `Write` or `Flush` before any such call.
  Changing the map afterwards has no effect on the response.
* `writes` lists the argument of every `Write` call received, in order.
* `headerCalls` lists the argument of every `WriteHeader` call received from
  outside, in order.
* `flusher` tells whether the sink implements `http.Flusher`.

A status code outside 100..999 makes `WriteHeader` of `net/http` panic; such
calls are outside the model. -/
structure Sink where
  header : Header
  committed : Option (Int × Header)
  writes : List Bytes
  headerCalls : List Int
  flusher : Bool

/-- A sink nothing has been sent to yet. -/
def Sink.fresh (flusher : Bool) : Sink :=
  { header := Header.empty, committed := none, writes := [], headerCalls := [], flusher := flusher }

/-- Commit status and headers unless that has happened already. -/
def Sink.commit (s : Sink) (statusCode : Int) : Sink :=
  match s.committed with
  | some _ => s
  | none => { s with committed := some (statusCode, s.header) }

/-- An informational status code: 1xx other than 101 Switching Protocols. -/
def isInformational (statusCode : Int) : Bool :=
  decide (100 ≤ statusCode) && decide (statusCode ≤ 199) && decide (statusCode ≠ 101)

/-- The sink's `WriteHeader`.  An informational status is sent as an interim
response and leaves the final status and the headers open; any other status
commits them, unless they have been committed already. -/
def Sink.WriteHeader (s : Sink) (statusCode : Int) : Sink :=
  if isInformational statusCode then { s with headerCalls := s.headerCalls ++ [statusCode] }
  else { s.commit statusCode with headerCalls := s.headerCalls ++ [statusCode] }

/-- The sink's `Write`: if `WriteHeader` has not yet been called, the headers
are committed with status 200 first. -/
def Sink.Write (s : Sink) (p : Bytes) : Sink :=
  { s.commit 200 with writes := s.writes ++ [p] }

/-- The sink's `Flush`, which sends the headers if they have not been sent. -/
def Sink.Flush (s : Sink) : Sink := s.commit 200

/-- All body bytes the sink has received. -/
def Sink.body (s : Sink) : Bytes := s.writes.flatten

/-! ## The plugin -/

/-- The Go `Config`. -/
structure Config where
  LastModified : Bool
  UserIDRegex : String

/-- The Go `CreateConfig`. -/
def CreateConfig : Config := { LastModified := false, UserIDRegex := "" }

/-- The Go `responseWriter`: the buffering wrapper around the real sink.  The
embedded `http.ResponseWriter` is the state of the real sink. -/
structure responseWriter where
  buffer : Bytes
  lastModified : Bool
  wroteHeader : Bool
  ResponseWriter : Sink

/-- The Go `responseWriter.WriteHeader`. -/
def responseWriter.WriteHeader (r : responseWriter) (statusCode : Int) : responseWriter :=
  let r1 : responseWriter :=
    if r.lastModified = false then
      { r with ResponseWriter := { r.ResponseWriter with
          header := r.ResponseWriter.header.Del "Last-Modified" } }
    else r
  let r2 : responseWriter := { r1 with wroteHeader := true }
  let r3 : responseWriter :=
    { r2 with ResponseWriter := { r2.ResponseWriter with
        header := r2.ResponseWriter.header.Del "Content-Length" } }
  { r3 with ResponseWriter := r3.ResponseWriter.WriteHeader statusCode }

/-- The Go `responseWriter.Write`, with its results `(int, error)`; the error
of `bytes.Buffer.Write` is always nil. -/
def responseWriter.Write (r : responseWriter) (p : Bytes) : responseWriter × Nat × Option Unit :=
  let r1 : responseWriter := if r.wroteHeader = false then r.WriteHeader 200 else r
  ({ r1 with buffer := r1.buffer ++ p }, p.length, none)

/-- The Go `responseWriter.Flush`. -/
def responseWriter.Flush (r : responseWriter) : responseWriter :=
  if r.ResponseWriter.flusher then { r with ResponseWriter := r.ResponseWriter.Flush } else r

/-- One action of the next handler on the response writer and the request it
was given: any update of the header map `rw.Header()`, any update of the
request, a `WriteHeader`, a `Write`, a `Flush`.  Taking over the connection
(`Hijack`) ends HTTP handling and is not modelled, nor is a handler that
panics. -/
inductive Op where
  | header (f : Header → Header)
  | request (f : Request → Request)
  | writeHeader (statusCode : Int)
  | write (p : Bytes)
  | flush

/-- The next `http.Handler`, given by the actions one call of its `ServeHTTP`
performs, in order.  What a handler observes (the header map, the request, the
results of `Write`) is determined by the actions before, so every run of a
handler that returns is such a sequence. -/
abbrev Handler := List Op

/-- Perform one action of the next handler. -/
def Op.run (op : Op) (st : responseWriter × Request) : responseWriter × Request :=
  match op with
  | Op.header f =>
    ({ st.1 with ResponseWriter := { st.1.ResponseWriter with
        header := f st.1.ResponseWriter.header } }, st.2)
  | Op.request f => (st.1, f st.2)
  | Op.writeHeader statusCode => (st.1.WriteHeader statusCode, st.2)
  | Op.write p => ((st.1.Write p).1, st.2)
  | Op.flush => (st.1.Flush, st.2)

/-- The call `next.ServeHTTP(wrappedWriter, req)`. -/
def Handler.ServeHTTP (next : Handler) (w : responseWriter) (req : Request) :
    responseWriter × Request :=
  next.foldl (fun st op => op.run st) (w, req)

/-- The Go `matrixSearchFilter`. -/
structure matrixSearchFilter where
  name : String
  next : Handler
  UserIDRegex : Regexp
  lastModified : Bool

/-- The error of `New`: `error compiling regex %q: %w`. -/
structure NewError where
  expr : String
  cause : CompileError
  deriving DecidableEq, Repr

/-- The Go `New`.  The context argument is unused by the source and left out.
The library function `regexp.Compile` is the parameter `compile`: it maps a
pattern to its compiled form or to the error with which it rejects the
pattern. -/
def New (compile : String → Except CompileError Regexp) (next : Handler) (config : Config)
    (name : String) : Except NewError matrixSearchFilter :=
  match compile config.UserIDRegex with
  | Except.error err => Except.error { expr := config.UserIDRegex, cause := err }
  | Except.ok regex =>
    Except.ok { name := name, next := next, UserIDRegex := regex,
                lastModified := config.LastModified }

/-- The errors of `filterResponse`. -/
inductive FilterError where
  | decode (e : UnmarshalError)
  | encode (e : MarshalError)
  deriving DecidableEq, Repr

/-- The loop `for _, user := range searchRes.Results` of `filterResponse` on the
backing array of the slice: `n` iterations are left, `i` is the index of the
next element, `count` the number of elements kept so far.  The element is read
when its iteration starts; a kept element is written to index `count`. -/
def filterLoop (userIDRegex : Regexp) : Nat → Nat → List MatrixUser → Nat → List MatrixUser × Nat
  | 0, _, arr, count => (arr, count)
  | n + 1, i, arr, count =>
    match arr[i]? with
    | none => (arr, count)
    | some user =>
      if userIDRegex.MatchString user.UserID then
        filterLoop userIDRegex n (i + 1) (arr.set count user) (count + 1)
      else filterLoop userIDRegex n (i + 1) arr count

/-- The loop and the reslicing `searchRes.Results[:count]`.  Ranging over the
nil slice runs no iteration, and reslicing it gives the nil slice. -/
def filterResults (userIDRegex : Regexp) : Option (List MatrixUser) → Option (List MatrixUser)
  | none => none
  | some arr =>
    let r := filterLoop userIDRegex arr.length 0 arr 0
    some (r.1.take r.2)

/-- The Go `filterResponse`.  The calls of `log.Printf` on the two error paths
write to the log only and are left out. -/
def filterResponse (bodyBytes : Bytes) (userIDRegex : Regexp) : Except FilterError Bytes :=
  match Unmarshal bodyBytes with
  | Except.error err => Except.error (FilterError.decode err)
  | Except.ok searchRes =>
    let searchRes : MatrixSearchResult :=
      { searchRes with Results := filterResults userIDRegex searchRes.Results }
    match Marshal searchRes with
    | Except.error err => Except.error (FilterError.encode err)
    | Except.ok bodyBytes => Except.ok bodyBytes

/-- The path of the user-directory search endpoint. -/
def searchPath : String := "/_matrix/client/v3/user_directory/search"

/-- The condition under which `ServeHTTP` passes the body through, evaluated
after the next handler has returned. -/
def passThrough (req : Request) (contentEncoding : String) : Bool :=
  decide (req.Method ≠ "POST") || decide (req.Path ≠ searchPath) ||
    decide (req.Header.Get "Content-Type" ≠ "application/json") ||
    (decide (contentEncoding ≠ "") && decide (contentEncoding ≠ "identity"))

/-- The Go `matrixSearchFilter.ServeHTTP`: the state of the real sink when it
returns.  The request is read after the next handler has returned, which may
have changed it.  An error of `rw.Write` is only logged. -/
def matrixSearchFilter.ServeHTTP (r : matrixSearchFilter) (rw : Sink) (req : Request) : Sink :=
  let wrappedWriter : responseWriter :=
    { buffer := [], lastModified := r.lastModified, wroteHeader := false, ResponseWriter := rw }
  let st := r.next.ServeHTTP wrappedWriter req
  let bodyBytes := st.1.buffer
  let contentEncoding := st.1.ResponseWriter.header.Get "Content-Encoding"
  if passThrough st.2 contentEncoding then st.1.ResponseWriter.Write bodyBytes
  else
    match filterResponse bodyBytes r.UserIDRegex with
    | Except.error _ => st.1.ResponseWriter
    | Except.ok filtered => st.1.ResponseWriter.Write filtered

/-- The bytes captured from a handler: the arguments of its `Write` calls, in
order, concatenated. -/
def Handler.written : Handler → Bytes
  | [] => []
  | Op.write p :: ops => p ++ Handler.written ops
  | _ :: ops => Handler.written ops

/-! ## The constants of the tests -/

/-- The `exampleBody` of the tests. -/
def exampleBody : String :=
  "\x7b\n    \"limited\": false,\n    \"results\": [\n        \x7b\n            \"user_id\": \"@abc:example.com\",\n            \"display_name\": \"ABC\",\n            \"avatar_url\": null\n        \x7d,\n        \x7b\n            \"user_id\": \"@efg_+:foo.example.com.bar\",\n            \"display_name\": \"E FG\",\n            \"avatar_url\": \"mxc://foo.example.com.bar/lNQvWxOnxiRINfNkcGA\"\n        \x7d,\n        \x7b\n            \"user_id\": \"@hij:bar.foo\",\n            \"display_name\": \"HIJ\"\n        \x7d\n    ]\n\x7d"

/-- The pattern of the tests that compiles. -/
def examplePattern : String := "^@[a-z0-9\\._=\\-\\/\\+]+:example\\.com$"

/-- The pattern of `TestNew` that does not compile: its bracket expression is
never closed. -/
def brokenPattern : String := "^@[a-z0-9\\._=\\-\\/\\++:example\\.com$"

/-- The expected body of the first test case. -/
def expectedBody : String :=
  "\x7b\"limited\":false,\"results\":[\x7b\"display_name\":\"ABC\",\"user_id\":\"@abc:example.com\"\x7d]\x7d"

/-- The syntax tree of `examplePattern`. -/
def exampleRegexp : Regexp :=
  Regexp.concat Regexp.beginText
    (Regexp.concat (Regexp.literal '@')
      (Regexp.concat
        (Regexp.plus (Regexp.charClass false
          [('a', 'z'), ('0', '9'), ('.', '.'), ('_', '_'), ('=', '='), ('-', '-'), ('/', '/'),
            ('+', '+')]))
        (Regexp.concat (Regexp.literal ':')
          (Regexp.concat (Regexp.literal 'e')
            (Regexp.concat (Regexp.literal 'x')
              (Regexp.concat (Regexp.literal 'a')
                (Regexp.concat (Regexp.literal 'm')
                  (Regexp.concat (Regexp.literal 'p')
                    (Regexp.concat (Regexp.literal 'l')
                      (Regexp.concat (Regexp.literal 'e')
                        (Regexp.concat (Regexp.literal '.')
                          (Regexp.concat (Regexp.literal 'c')
                            (Regexp.concat (Regexp.literal 'o')
                              (Regexp.concat (Regexp.literal 'm')
                                (Regexp.concat Regexp.endText Regexp.emptyMatch)))))))))))))))

/-! ## Auxiliary definitions for the proofs -/

/-- Whether `escapeRune` writes the rune as a `\uXXXX` escape. -/
def needsU (c : Char) : Bool :=
  (decide (c.toNat < 0x20) && !(decide (c.toNat = 8) || decide (c.toNat = 12) ||
      decide (c.toNat = 10) || decide (c.toNat = 13) || decide (c.toNat = 9)))
    || decide (c = '<') || decide (c = '>') || decide (c = '&')
    || decide (c.toNat = 0x2028) || decide (c.toNat = 0x2029)

/-- The item `scanString` reads back from `escapeRune c`. -/
def unitOf (c : Char) : StrUnit :=
  if needsU c then StrUnit.u16 c.toNat else StrUnit.rune c

/-- The member an `omitempty` string field contributes to the encoded object. -/
def optMember (name : String) (s : String) : List (List Char × JValue) :=
  if s = "" then [] else [(name.data, JValue.string s.data)]

/-- The members of the object `encodeUser` writes. -/
def userMembers (u : MatrixUser) : List (List Char × JValue) :=
  optMember "avatar_url" u.AvatarURL ++ (optMember "display_name" u.DisplayName
    ++ [("user_id".data, JValue.string u.UserID.data)])

/-- The JSON value `encodeUser` writes. -/
def userJ (u : MatrixUser) : JValue := JValue.object (userMembers u)

/-- The JSON value `encodeResults` writes. -/
def resultsJ : Option (List MatrixUser) → JValue
  | none => JValue.null
  | some us => JValue.array (us.map userJ)

/-- The JSON value `marshalRunes` writes. -/
def searchJ (sr : MatrixSearchResult) : JValue :=
  JValue.object [("limited".data, JValue.bool sr.Limited), ("results".data, resultsJ sr.Results)]

/-- The wrapper and the request as `ServeHTTP` finds them when the next handler
has returned. -/
def matrixSearchFilter.afterNext (r : matrixSearchFilter) (rw : Sink) (req : Request) :
    responseWriter × Request :=
  r.next.ServeHTTP
    { buffer := [], lastModified := r.lastModified, wroteHeader := false, ResponseWriter := rw } req

/-- The header rewriting of `responseWriter.WriteHeader`. -/
def stripHeaders (lastModified : Bool) (h : Header) : Header :=
  (if lastModified = false then h.Del "Last-Modified" else h).Del "Content-Length"

/-- A fresh wrapper around a sink, after an optional explicit `WriteHeader` and
a sequence of `Write` calls. -/
def writeAll (lastModified : Bool) (s : Sink) (explicit : Option Int) (chunks : List Bytes) :
    responseWriter :=
  let w0 : responseWriter :=
    { buffer := [], lastModified := lastModified, wroteHeader := false, ResponseWriter := s }
  let w1 : responseWriter :=
    match explicit with
    | some statusCode => w0.WriteHeader statusCode
    | none => w0
  chunks.foldl (fun w p => (w.Write p).1) w1

/-- The handler of `TestServeHTTP`. -/
def testHandler (contentEncoding contentType : String) (resBody : Bytes) : Handler :=
  [ Op.header (fun h => h.Set "Content-Encoding" contentEncoding),
    Op.header (fun h => h.Set "Last-Modified" "Thu, 02 Jun 2016 06:01:08 GMT"),
    Op.header (fun h => h.Set "Content-Length" (toString resBody.length)),
    Op.writeHeader 200,
    Op.request (fun q => { q with Header := q.Header.Set "Content-Type" contentType }),
    Op.write resBody ]

/-- The request of `TestServeHTTP`. -/
def testRequest : Request :=
  { Method := "POST", Path := "/_matrix/client/v3/user_directory/search", Header := Header.empty }

/-- The syntax tree of the unanchored pattern `example\.com`. -/
def unanchoredRegexp : Regexp :=
  Regexp.concat (Regexp.literal 'e')
    (Regexp.concat (Regexp.literal 'x')
      (Regexp.concat (Regexp.literal 'a')
        (Regexp.concat (Regexp.literal 'm')
          (Regexp.concat (Regexp.literal 'p')
            (Regexp.concat (Regexp.literal 'l')
              (Regexp.concat (Regexp.literal 'e')
                (Regexp.concat (Regexp.literal '.')
                  (Regexp.concat (Regexp.literal 'c')
                    (Regexp.concat (Regexp.literal 'o')
                      (Regexp.concat (Regexp.literal 'm') Regexp.emptyMatch))))))))))

/-- The records of `exampleBody` as `json.Unmarshal` stores them. -/
def exampleResult : MatrixSearchResult :=
  { Limited := false,
    Results := some
      [ { AvatarURL := "", DisplayName := "ABC", UserID := "@abc:example.com" },
        { AvatarURL := "mxc://foo.example.com.bar/lNQvWxOnxiRINfNkcGA", DisplayName := "E FG",
          UserID := "@efg_+:foo.example.com.bar" },
        { AvatarURL := "", DisplayName := "HIJ", UserID := "@hij:bar.foo" } ] }

/-- A body without a `results` key. -/
def bodyWithoutResults : String := "\x7b\"limited\":false\x7d"

/-- What `filterResponse` returns for `bodyWithoutResults`. -/
def nullResultsBody : String := "\x7b\"limited\":false,\"results\":null\x7d"

/-- The text `\"results\":[]`. -/
def emptyResultsText : String := "\"results\":[]"

/-- A body whose only record the pattern of the tests does not match. -/
def bodyWithStranger : String :=
  "\x7b\"limited\":true,\"results\":[\x7b\"user_id\":\"@hij:bar.foo\"\x7d]\x7d"

/-- A body whose only record lives on another server whose name merely
contains `example.com`. -/
def bodyWithLookalike : String :=
  "\x7b\"limited\":false,\"results\":[\x7b\"user_id\":\"@mallory:example.com.evil.org\"\x7d]\x7d"

/-- The encoding `json.Marshal` gives a result without records whose `Results`
slice is not nil. -/
def emptyResultsBody (limited : Bool) : Bytes :=
  utf8Encode ("\x7b\"limited\":".data ++ (encodeBool limited ++ ",\"results\":[]\x7d".data))

/-- The pattern `example\.com`, without anchors. -/
def unanchoredPattern : String := "example\\.com"

/-- The filter `TestServeHTTP` builds for one test case. -/
def testFilter (lastModified : Bool) (contentEncoding contentType : String) (resBody : Bytes) :
    matrixSearchFilter :=
  { name := "matrixSearchFilter", next := testHandler contentEncoding contentType resBody,
    UserIDRegex := exampleRegexp, lastModified := lastModified }

/-- A filter whose next handler sets `Content-Length` and `Last-Modified` and
writes neither a status code nor a body. -/
def headersOnlyFilter : matrixSearchFilter :=
  { name := "matrixSearchFilter",
    next := [ Op.header (fun h => h.Set "Content-Length" "18"),
              Op.header (fun h => h.Set "Last-Modified" "Thu, 02 Jun 2016 06:01:08 GMT") ],
    UserIDRegex := exampleRegexp, lastModified := false }

/-- A filter whose next handler sets the two headers, flushes, and then writes
its body. -/
def flushFirstFilter : matrixSearchFilter :=
  { name := "matrixSearchFilter",
    next := [ Op.header (fun h => h.Set "Content-Length" "5"),
              Op.header (fun h => h.Set "Last-Modified" "Thu, 02 Jun 2016 06:01:08 GMT"),
              Op.flush,
              Op.write (bytesOf "hello") ],
    UserIDRegex := exampleRegexp, lastModified := false }

/-- A filter whose next handler announces `103 Early Hints`, then sets the two
headers and writes its body. -/
def earlyHintsFilter : matrixSearchFilter :=
  { name := "matrixSearchFilter",
    next := [ Op.writeHeader 103,
              Op.header (fun h => h.Set "Content-Length" "5"),
              Op.header (fun h => h.Set "Last-Modified" "Thu, 02 Jun 2016 06:01:08 GMT"),
              Op.write (bytesOf "hello") ],
    UserIDRegex := exampleRegexp, lastModified := false }

/-- A `GET` request for the search path. -/
def getRequest : Request :=
  { Method := "GET", Path := "/_matrix/client/v3/user_directory/search", Header := Header.empty }

/-- The concatenation of the given expressions, as `parseConcat` builds it. -/
def Regexp.sequence : List Regexp → Regexp
  | [] => Regexp.emptyMatch
  | a :: rest => Regexp.concat a (Regexp.sequence rest)

/-- The items of `examplePattern` between its two anchors:
`@[a-z0-9\._=\-\/\+]+:example\.com`. -/
def exampleItems : List Regexp :=
  [ Regexp.literal '@',
    Regexp.plus (Regexp.charClass false
      [('a', 'z'), ('0', '9'), ('.', '.'), ('_', '_'), ('=', '='), ('-', '-'), ('/', '/'),
        ('+', '+')]),
    Regexp.literal ':', Regexp.literal 'e', Regexp.literal 'x', Regexp.literal 'a',
    Regexp.literal 'm', Regexp.literal 'p', Regexp.literal 'l', Regexp.literal 'e',
    Regexp.literal '.', Regexp.literal 'c', Regexp.literal 'o', Regexp.literal 'm' ]

/-- The pattern `^a|b$`: an alternation of `^a` and `b$`. -/
def alternationPattern : String := "^a|b$"

/-- The syntax tree of `alternationPattern`. -/
def alternationRegexp : Regexp :=
  Regexp.alternate
    (Regexp.concat Regexp.beginText (Regexp.concat (Regexp.literal 'a') Regexp.emptyMatch))
    (Regexp.concat (Regexp.literal 'b') (Regexp.concat Regexp.endText Regexp.emptyMatch))

/-- A stand-in for `regexp.Compile` in the examples: the result of
`compileFragment` where it makes a statement, a rejection elsewhere. -/
def compileOrReject (expr : String) : Except CompileError Regexp :=
  match compileFragment expr with
  | some r => r
  | none => Except.error CompileError.internalError

/-! # Properties -/

/-! ## UTF-8 round trip -/

theorem char_toNat_lt (c : Char) : c.toNat < 0x110000 := by
  rcases c.valid with h | ⟨_, h⟩
  · have h1 : c.val.toNat < 0xD800 := h
    show c.val.toNat < _
    omega
  · exact h

theorem char_toNat_not_surrogate (c : Char) : c.toNat < 0xD800 ∨ 0xDFFF < c.toNat := by
  rcases c.valid with h | ⟨h, _⟩
  · exact Or.inl h
  · exact Or.inr h

theorem encodeScalar_lt (n : Nat) (hlt : n < 0x110000) : ∀ b ∈ encodeScalar n, b < 256 := by
  intro b hb
  simp only [encodeScalar] at hb
  split_ifs at hb <;> simp at hb <;> omega

theorem encodeScalar_length_pos (n : Nat) : 0 < (encodeScalar n).length := by
  simp only [encodeScalar]
  split_ifs <;> simp

theorem decodeRune_encodeScalar (n : Nat) (hlt : n < 0x110000)
    (hs : n < 0xD800 ∨ 0xDFFF < n) (rest : List Nat) :
    decodeRune (encodeScalar n ++ rest) = (Char.ofNat n, (encodeScalar n).length) := by
  unfold encodeScalar
  split_ifs with h1 h2 h3
  · simp [decodeRune, h1]
  · have e1 : ¬ (0xC0 + n / 64 < 0x80) := by omega
    have e2 : 0xC2 ≤ 0xC0 + n / 64 ∧ 0xC0 + n / 64 ≤ 0xDF := by omega
    have e3 : isCont (0x80 + n % 64) = true := by simp [isCont]; omega
    have e4 : (0xC0 + n / 64 - 0xC0) * 64 + (0x80 + n % 64 - 0x80) = n := by omega
    simp only [decodeRune, List.cons_append, List.nil_append, if_neg e1, if_pos e2, e3, e4,
      if_true, List.length_cons, List.length_nil]
  · have e1 : ¬ (0xE0 + n / 4096 < 0x80) := by omega
    have e2 : ¬ (0xC2 ≤ 0xE0 + n / 4096 ∧ 0xE0 + n / 4096 ≤ 0xDF) := by omega
    have e3 : 0xE0 ≤ 0xE0 + n / 4096 ∧ 0xE0 + n / 4096 ≤ 0xEF := by omega
    have e4 : ((if 0xE0 + n / 4096 = 0xE0 then 0xA0 else 0x80) ≤ 0x80 + n / 64 % 64 ∧
        0x80 + n / 64 % 64 ≤ (if 0xE0 + n / 4096 = 0xED then 0x9F else 0xBF) ∧
        isCont (0x80 + n % 64) = true) := by
      refine ⟨?_, ?_, ?_⟩
      · split_ifs <;> omega
      · split_ifs <;> omega
      · simp [isCont]; omega
    have e5 : (0xE0 + n / 4096 - 0xE0) * 4096 + (0x80 + n / 64 % 64 - 0x80) * 64
        + (0x80 + n % 64 - 0x80) = n := by omega
    simp only [decodeRune, List.cons_append, List.nil_append, if_neg e1, if_neg e2, if_pos e3,
      if_pos e4, e5, List.length_cons, List.length_nil]
  · have e1 : ¬ (0xF0 + n / 262144 < 0x80) := by omega
    have e2 : ¬ (0xC2 ≤ 0xF0 + n / 262144 ∧ 0xF0 + n / 262144 ≤ 0xDF) := by omega
    have e3 : ¬ (0xE0 ≤ 0xF0 + n / 262144 ∧ 0xF0 + n / 262144 ≤ 0xEF) := by omega
    have e3b : 0xF0 ≤ 0xF0 + n / 262144 ∧ 0xF0 + n / 262144 ≤ 0xF4 := by omega
    have e4 : ((if 0xF0 + n / 262144 = 0xF0 then 0x90 else 0x80) ≤ 0x80 + n / 4096 % 64 ∧
        0x80 + n / 4096 % 64 ≤ (if 0xF0 + n / 262144 = 0xF4 then 0x8F else 0xBF) ∧
        isCont (0x80 + n / 64 % 64) = true ∧ isCont (0x80 + n % 64) = true) := by
      refine ⟨?_, ?_, ?_, ?_⟩
      · split_ifs <;> omega
      · split_ifs <;> omega
      · simp [isCont]; omega
      · simp [isCont]; omega
    have e5 : (0xF0 + n / 262144 - 0xF0) * 262144 + (0x80 + n / 4096 % 64 - 0x80) * 4096
        + (0x80 + n / 64 % 64 - 0x80) * 64 + (0x80 + n % 64 - 0x80) = n := by omega
    simp only [decodeRune, List.cons_append, List.nil_append, if_neg e1, if_neg e2, if_neg e3,
      if_pos e3b, if_pos e4, e5, List.length_cons, List.length_nil]

theorem decodeRune_encodeRune (c : Char) (rest : List Nat) :
    decodeRune (encodeRune c ++ rest) = (c, (encodeRune c).length) := by
  have h := decodeRune_encodeScalar c.toNat (char_toNat_lt c) (char_toNat_not_surrogate c) rest
  rw [Char.ofNat_toNat] at h
  exact h

theorem decodeRunes_encode (cs : List Char) :
    ∀ fuel, cs.length ≤ fuel → decodeRunes fuel (cs.flatMap encodeRune) = cs := by
  induction cs with
  | nil => intro fuel _; cases fuel <;> simp [decodeRunes]
  | cons c cs ih =>
    intro fuel hf
    cases fuel with
    | zero => simp at hf
    | succ fuel =>
      have hpos := encodeScalar_length_pos c.toNat
      rw [List.flatMap_cons]
      cases hE : encodeRune c with
      | nil => simp [encodeRune, hE] at hpos; rw [show encodeScalar c.toNat = [] from hE] at hpos; simp at hpos
      | cons b bs =>
        have hd := decodeRune_encodeRune c (cs.flatMap encodeRune)
        rw [hE] at hd
        simp only [List.cons_append] at hd ⊢
        simp only [decodeRunes, hd]
        rw [← List.cons_append, List.drop_left, ih fuel (by simpa using hf)]

theorem map_toNat_ofNat (ns : List Nat) (h : ∀ n ∈ ns, n < 256) :
    (ns.map UInt8.ofNat).map UInt8.toNat = ns := by
  induction ns with
  | nil => rfl
  | cons n ns ih =>
    simp only [List.map_cons, List.cons.injEq]
    refine ⟨?_, ih (fun m hm => h m (List.mem_cons_of_mem _ hm))⟩
    have := h n (List.mem_cons_self _ _)
    show (UInt8.ofNat n).toNat = n
    simp [UInt8.toNat, UInt8.ofNat]
    omega

theorem length_le_flatMap_encodeRune (cs : List Char) :
    cs.length ≤ (cs.flatMap encodeRune).length := by
  induction cs with
  | nil => simp
  | cons c cs ih =>
    have := encodeScalar_length_pos c.toNat
    simp only [List.flatMap_cons, List.length_append, List.length_cons, encodeRune]
    omega

theorem utf8DecodeLossy_utf8Encode (cs : List Char) : utf8DecodeLossy (utf8Encode cs) = cs := by
  unfold utf8DecodeLossy utf8Encode
  rw [map_toNat_ofNat]
  · apply decodeRunes_encode
    simpa using length_le_flatMap_encodeRune cs
  · intro n hn
    rw [List.mem_flatMap] at hn
    obtain ⟨c, _, hc⟩ := hn
    exact encodeScalar_lt c.toNat (char_toNat_lt c) n hc

theorem decodeRune_size_pos (b : Nat) (bs : List Nat) : 1 ≤ (decodeRune (b :: bs)).2 := by
  simp only [decodeRune]
  split_ifs <;> (try split) <;> (try split_ifs) <;> simp

/-- The fuel of `utf8DecodeLossy` is enough: any amount of fuel that is at least
the number of bytes gives the same runes. -/
theorem decodeRunes_fuel :
    ∀ (n m : Nat) (bs : List Nat), bs.length ≤ n → bs.length ≤ m →
      decodeRunes n bs = decodeRunes m bs := by
  intro n
  induction n with
  | zero =>
    intro m bs hn _
    have : bs = [] := List.length_eq_zero.mp (Nat.le_zero.mp hn)
    subst this
    cases m <;> simp [decodeRunes]
  | succ n ih =>
    intro m bs hn hm
    cases bs with
    | nil => cases m <;> simp [decodeRunes]
    | cons b bs =>
      obtain ⟨m1, rfl⟩ : ∃ m1, m = m1 + 1 := ⟨m - 1, by simp at hm; omega⟩
      have hpos := decodeRune_size_pos b bs
      simp only [decodeRunes, List.cons.injEq, true_and]
      apply ih
      · simp only [List.length_drop, List.length_cons] at hn ⊢; omega
      · simp only [List.length_drop, List.length_cons] at hm ⊢; omega
/-! ## The compaction loop -/

theorem filterLoop_spec (re : Regexp) :
    ∀ (n i : Nat) (arr : List MatrixUser) (count : Nat),
      i + n = arr.length → count ≤ i →
      ((filterLoop re n i arr count).1.take (filterLoop re n i arr count).2
        = arr.take count ++ (arr.drop i).filter (fun u => re.MatchString u.UserID))
      ∧ (filterLoop re n i arr count).1.length = arr.length := by
  intro n
  induction n with
  | zero =>
    intro i arr count hlen _
    have : arr.drop i = [] := List.drop_eq_nil_of_le (by omega)
    simp [filterLoop, this]
  | succ n ih =>
    intro i arr count hlen hc
    have hi : i < arr.length := by omega
    have hget : arr[i]? = some arr[i] := List.getElem?_eq_getElem hi
    have hdrop : arr.drop i = arr[i] :: arr.drop (i + 1) := List.drop_eq_getElem_cons hi
    rw [filterLoop, hget]
    simp only
    by_cases hm : re.MatchString arr[i].UserID = true
    · rw [if_pos hm]
      have hlen2 : i + 1 + n = (arr.set count arr[i]).length := by simp; omega
      obtain ⟨h1, h2⟩ := ih (i + 1) (arr.set count arr[i]) (count + 1) hlen2 (by omega)
      refine ⟨?_, by simpa using h2⟩
      rw [h1, hdrop, List.filter_cons_of_pos (by simpa using hm)]
      have hcl : count < arr.length := by omega
      have e1 : (arr.set count arr[i]).take (count + 1) = arr.take count ++ [arr[i]] := by
        rw [List.take_succ, List.set_take, List.set_eq_of_length_le (by simp)]
        simp [hcl]
      have e2 : (arr.set count arr[i]).drop (i + 1) = arr.drop (i + 1) := by
        rw [List.drop_set_of_lt _ _ (by omega)]
      rw [e1, e2]
      simp
    · rw [if_neg hm]
      obtain ⟨h1, h2⟩ := ih (i + 1) arr count (by omega) (by omega)
      refine ⟨?_, h2⟩
      rw [h1, hdrop, List.filter_cons_of_neg (by simpa using hm)]

theorem filterResults_eq (re : Regexp) (rs : Option (List MatrixUser)) :
    filterResults re rs = rs.map (List.filter (fun u => re.MatchString u.UserID)) := by
  cases rs with
  | none => rfl
  | some arr =>
    have h := (filterLoop_spec re arr.length 0 arr 0 (by simp) (le_refl _)).1
    simp only [filterResults, Option.map_some']
    rw [h]
    simp


/-! ## String literals round trip -/

theorem char_eq_of_toNat_eq {c d : Char} (h : c.toNat = d.toNat) : c = d := by
  rw [← Char.ofNat_toNat c, ← Char.ofNat_toNat d, h]

theorem hexVal_hexDigit (k : Nat) (hk : k < 16) : hexVal (hexDigit k) = some k := by
  interval_cases k <;> decide
theorem scanString_quote (rest : List Char) : scanString ('\"' :: rest) = some ([], rest) := by
  rw [scanString.eq_def]; simp

theorem scanString_short (e : Char) (rest : List Char) (ch : Char) (he : unescape e = some ch)
    (us : List StrUnit) (r : List Char) (h : scanString rest = some (us, r)) :
    scanString ('\\' :: e :: rest) = some (StrUnit.rune ch :: us, r) := by
  have hu : e ≠ 'u' := by
    intro hh; subst hh; simp [unescape] at he
  rw [scanString.eq_def]
  simp [hu, he, h]

theorem scanString_u (a b c d : Char) (rest : List Char) (n : Nat) (hn : hex4 a b c d = some n)
    (us : List StrUnit) (r : List Char) (h : scanString rest = some (us, r)) :
    scanString ('\\' :: 'u' :: a :: b :: c :: d :: rest) = some (StrUnit.u16 n :: us, r) := by
  rw [scanString.eq_def]
  simp [hn, h]

theorem scanString_plain (c : Char) (rest : List Char) (h1 : c ≠ '\"') (h2 : c ≠ '\\')
    (h3 : ¬ c.toNat < 0x20)
    (us : List StrUnit) (r : List Char) (h : scanString rest = some (us, r)) :
    scanString (c :: rest) = some (StrUnit.rune c :: us, r) := by
  rw [scanString.eq_def]
  simp [h1, h2, h3, h]

theorem escapeRune_short (c : Char) (n : Nat) (e : Char) (hn : c.toNat = n)
    (hc : c = Char.ofNat n)
    (hne : n = 8 ∧ e = 'b' ∨ n = 12 ∧ e = 'f' ∨ n = 10 ∧ e = 'n' ∨ n = 13 ∧ e = 'r' ∨ n = 9 ∧ e = 't') :
    escapeRune c = ['\\', e] ∧ unescape e = some c ∧ needsU c = false := by
  rcases hne with ⟨h, he⟩ | ⟨h, he⟩ | ⟨h, he⟩ | ⟨h, he⟩ | ⟨h, he⟩ <;> subst h <;> subst he <;>
    subst hc <;> decide

theorem scanString_escapeRune (c : Char) (tail : List Char) (us : List StrUnit) (r : List Char)
    (h : scanString tail = some (us, r)) :
    scanString (escapeRune c ++ tail) = some (unitOf c :: us, r) := by
  have hlt := char_toNat_lt c
  by_cases h1 : c = '\\' ∨ c = '\"'
  · have e1 : escapeRune c = ['\\', c] := by simp [escapeRune, h1]
    have e2 : unescape c = some c := by rcases h1 with h1 | h1 <;> subst h1 <;> decide
    have e3 : unitOf c = StrUnit.rune c := by rcases h1 with h1 | h1 <;> subst h1 <;> decide
    rw [e1, e3]
    exact scanString_short c tail c e2 us r h
  by_cases h2 : c.toNat = 8 ∨ c.toNat = 12 ∨ c.toNat = 10 ∨ c.toNat = 13 ∨ c.toNat = 9
  · obtain ⟨e, he⟩ : ∃ e, c.toNat = 8 ∧ e = 'b' ∨ c.toNat = 12 ∧ e = 'f' ∨ c.toNat = 10 ∧ e = 'n'
        ∨ c.toNat = 13 ∧ e = 'r' ∨ c.toNat = 9 ∧ e = 't' := by
      rcases h2 with h | h | h | h | h
      · exact ⟨'b', by simp [h]⟩
      · exact ⟨'f', by simp [h]⟩
      · exact ⟨'n', by simp [h]⟩
      · exact ⟨'r', by simp [h]⟩
      · exact ⟨'t', by simp [h]⟩
    obtain ⟨e1, e2, e3⟩ := escapeRune_short c c.toNat e rfl (Char.ofNat_toNat c).symm he
    rw [e1, unitOf, e3]
    exact scanString_short e tail c e2 us r h
  push_neg at h1 h2
  obtain ⟨h1a, h1b⟩ := h1
  obtain ⟨h2a, h2b, h2c, h2d, h2e⟩ := h2
  by_cases h3 : c.toNat < 0x20 ∨ c = '<' ∨ c = '>' ∨ c = '&'
  · have hn : c.toNat < 64 := by
      rcases h3 with h | h | h | h
      · omega
      · subst h; decide
      · subst h; decide
      · subst h; decide
    have e1 : escapeRune c = ['\\', 'u', '0', '0', hexDigit (c.toNat / 16), hexDigit (c.toNat % 16)] := by
      simp only [escapeRune]
      rw [if_neg (by simp [h1a, h1b]), if_neg h2a, if_neg h2b, if_neg h2c, if_neg h2d, if_neg h2e,
        if_pos h3]
    have e2 : hex4 '0' '0' (hexDigit (c.toNat / 16)) (hexDigit (c.toNat % 16)) = some c.toNat := by
      have a1 := hexVal_hexDigit (c.toNat / 16) (by omega)
      have a2 := hexVal_hexDigit (c.toNat % 16) (by omega)
      have a3 : hexVal '0' = some 0 := by decide
      simp only [hex4, a1, a2, a3]
      congr 1
      omega
    have e3 : needsU c = true := by
      simp only [needsU]
      rcases h3 with h | h | h | h
      · simp [h, h2a, h2b, h2c, h2d, h2e]
      · simp [h]
      · simp [h]
      · simp [h]
    rw [e1, unitOf, e3]
    exact scanString_u _ _ _ _ tail c.toNat e2 us r h
  push_neg at h3
  obtain ⟨h3a, h3b, h3c, h3d⟩ := h3
  by_cases h4 : c.toNat = 0x2028 ∨ c.toNat = 0x2029
  · have e1 : escapeRune c = ['\\', 'u', '2', '0', '2', hexDigit (c.toNat % 16)] := by
      simp only [escapeRune]
      rw [if_neg (by simp [h1a, h1b]), if_neg h2a, if_neg h2b, if_neg h2c, if_neg h2d, if_neg h2e,
        if_neg (by simp [h3b, h3c, h3d]; omega), if_pos h4]
    have e2 : hex4 '2' '0' '2' (hexDigit (c.toNat % 16)) = some c.toNat := by
      have a2 := hexVal_hexDigit (c.toNat % 16) (by omega)
      have a3 : hexVal '0' = some 0 := by decide
      have a4 : hexVal '2' = some 2 := by decide
      simp only [hex4, a2, a3, a4]
      congr 1
      omega
    have e3 : needsU c = true := by
      simp only [needsU]
      rcases h4 with h | h <;> simp [h]
    rw [e1, unitOf, e3]
    exact scanString_u _ _ _ _ tail c.toNat e2 us r h
  push_neg at h4
  have e1 : escapeRune c = [c] := by
    simp only [escapeRune]
    rw [if_neg (by simp [h1a, h1b]), if_neg h2a, if_neg h2b, if_neg h2c, if_neg h2d, if_neg h2e,
      if_neg (by simp [h3b, h3c, h3d]; omega), if_neg (by omega)]
  have e3 : needsU c = false := by
    simp only [needsU]
    simp [h3b, h3c, h3d, h4.1, h4.2]
    omega
  rw [e1, unitOf, e3]
  exact scanString_plain c tail h1b h1a (by omega) us r h

theorem scanString_escape (cs : List Char) (rest : List Char) :
    scanString (cs.flatMap escapeRune ++ '\"' :: rest) = some (cs.map unitOf, rest) := by
  induction cs with
  | nil => exact scanString_quote rest
  | cons c cs ih =>
    rw [List.flatMap_cons, List.append_assoc, List.map_cons]
    exact scanString_escapeRune c _ _ _ ih

theorem needsU_toNat (c : Char) (h : needsU c = true) : c.toNat < 0xD800 := by
  simp only [needsU, Bool.or_eq_true, Bool.and_eq_true, decide_eq_true_eq] at h
  rcases h with ((((h | h) | h) | h) | h) | h
  · omega
  · subst h; decide
  · subst h; decide
  · subst h; decide
  · omega
  · omega

theorem joinUnits_u16 (n : Nat) (hn : n < 0xD800) (us : List StrUnit) :
    joinUnits (StrUnit.u16 n :: us) = Char.ofNat n :: joinUnits us := by
  have hr : runeOfU16 n = Char.ofNat n := by
    simp only [runeOfU16]
    rw [if_neg (by omega)]
  cases us with
  | nil => simp [joinUnits, hr]
  | cons u us =>
    cases u with
    | rune c => simp [joinUnits, hr]
    | u16 lo =>
      rw [joinUnits, if_neg (by omega), hr]

theorem joinUnits_map_unitOf (cs : List Char) : joinUnits (cs.map unitOf) = cs := by
  induction cs with
  | nil => simp [joinUnits]
  | cons c cs ih =>
    rw [List.map_cons]
    by_cases h : needsU c = true
    · rw [unitOf, if_pos h, joinUnits_u16 _ (needsU_toNat c h), ih, Char.ofNat_toNat]
    · rw [unitOf, if_neg h, joinUnits, ih]

theorem parseString_escape (cs : List Char) (rest : List Char) :
    parseString (cs.flatMap escapeRune ++ '\"' :: rest) = some (cs, rest) := by
  simp only [parseString, scanString_escape, joinUnits_map_unitOf]

/-- A field name is plain when `escapeRune` leaves every rune of it alone. -/
theorem parseString_plain (cs : List Char) (rest : List Char)
    (h : cs.flatMap escapeRune = cs) :
    parseString (cs ++ '\"' :: rest) = some (cs, rest) := by
  have := parseString_escape cs rest
  rwa [h] at this

/-! ## Parsing what the encoder writes -/

theorem skipSpace_of_not_space (c : Char) (r : List Char) (h : isSpace c = false) :
    skipSpace (c :: r) = c :: r := by
  rw [skipSpace, if_neg (by simp [h])]

theorem encodeString_eq (s : String) (rest : List Char) :
    encodeString s ++ rest = '\"' :: (s.data.flatMap escapeRune ++ '\"' :: rest) := by
  simp [encodeString]

theorem scanLiteral_string (s : String) (rest : List Char) :
    scanLiteral (encodeString s ++ rest) = some (JValue.string s.data, rest) := by
  rw [encodeString_eq, scanLiteral]
  simp [parseString_escape]

theorem parseValue_string (f d : Nat) (s : String) (rest : List Char) :
    parseValue (f + 1) d (encodeString s ++ rest) = some (JValue.string s.data, rest) := by
  rw [parseValue, ← scanLiteral_string s rest, encodeString_eq]
  simp

theorem parseValue_bool (f d : Nat) (b : Bool) (rest : List Char) :
    parseValue (f + 1) d (encodeBool b ++ rest) = some (JValue.bool b, rest) := by
  cases b <;> · rw [parseValue]; simp [encodeBool, scanLiteral]

theorem parseValue_null (f d : Nat) (rest : List Char) :
    parseValue (f + 1) d ('n' :: 'u' :: 'l' :: 'l' :: rest) = some (JValue.null, rest) := by
  rw [parseValue]; simp [scanLiteral]

theorem parseMembers_last (f d : Nat) (name : List Char) (hname : name.flatMap escapeRune = name)
    (V : List Char) (v : JValue) (rest : List Char)
    (hV : parseValue f d (V ++ '}' :: rest) = some (v, '}' :: rest))
    (hVs : skipSpace (V ++ '}' :: rest) = V ++ '}' :: rest) :
    parseMembers (f + 1) d ('\"' :: (name ++ '\"' :: ':' :: (V ++ '}' :: rest)))
      = some ([(name, v)], rest) := by
  rw [parseMembers]
  simp only [List.head?_cons, List.tail_cons, ↓reduceIte, parseString_plain name _ hname]
  rw [skipSpace_of_not_space _ _ (by decide)]
  simp only [List.head?_cons, List.tail_cons, ↓reduceIte, hVs, hV]
  rw [skipSpace_of_not_space _ _ (by decide)]
  simp

theorem parseMembers_cons (f d : Nat) (name : List Char) (hname : name.flatMap escapeRune = name)
    (V : List Char) (v : JValue) (tail : List Char) (ms : List (List Char × JValue))
    (r : List Char)
    (hV : parseValue f d (V ++ ',' :: tail) = some (v, ',' :: tail))
    (hVs : skipSpace (V ++ ',' :: tail) = V ++ ',' :: tail)
    (htail : skipSpace tail = tail)
    (hms : parseMembers f d tail = some (ms, r)) :
    parseMembers (f + 1) d ('\"' :: (name ++ '\"' :: ':' :: (V ++ ',' :: tail)))
      = some ((name, v) :: ms, r) := by
  rw [parseMembers]
  simp only [List.head?_cons, List.tail_cons, ↓reduceIte, parseString_plain name _ hname]
  rw [skipSpace_of_not_space _ _ (by decide)]
  simp only [List.head?_cons, List.tail_cons, ↓reduceIte, hVs, hV]
  rw [skipSpace_of_not_space _ _ (by decide)]
  simp [htail, hms]

theorem skipSpace_of_head (l : List Char) (c : Char) (h : l.head? = some c)
    (hc : isSpace c = false) : skipSpace l = l := by
  cases l with
  | nil => simp at h
  | cons a r =>
    simp only [List.head?_cons, Option.some.injEq] at h
    subst h
    exact skipSpace_of_not_space _ _ hc

theorem encodeString_head (s : String) (rest : List Char) :
    (encodeString s ++ rest).head? = some '\"' := by
  simp [encodeString]

theorem parseMembers_opt (N d : Nat) (name s : String) (tail : List Char)
    (ms : List (List Char × JValue)) (r : List Char)
    (hname : name.data.flatMap escapeRune = name.data)
    (ht : skipSpace tail = tail)
    (hms : ∀ f, N ≤ f → parseMembers f d tail = some (ms, r)) :
    ∀ f, N + 1 ≤ f →
      parseMembers f d (encodeOmitEmpty name s ++ tail) = some (optMember name s ++ ms, r) := by
  intro f hf
  have hN : 1 ≤ N := by
    rcases Nat.eq_zero_or_pos N with h | h
    · have := hms 0 (by omega)
      rw [parseMembers] at this
      simp at this
    · exact h
  by_cases hs : s = ""
  · simp only [encodeOmitEmpty, optMember, if_pos hs, List.nil_append]
    exact hms f (by omega)
  · obtain ⟨g, rfl⟩ : ∃ g, f = g + 1 := ⟨f - 1, by omega⟩
    obtain ⟨g1, rfl⟩ : ∃ g1, g = g1 + 1 := ⟨g - 1, by omega⟩
    simp only [encodeOmitEmpty, optMember, if_neg hs, List.cons_append, List.append_assoc,
      List.nil_append, List.singleton_append]
    exact parseMembers_cons (g1 + 1) d name.data hname (encodeString s) _ tail ms r
      (parseValue_string g1 d s _)
      (skipSpace_of_head _ _ (encodeString_head s _) (by decide)) ht (hms _ (by omega))

theorem parseMembers_uid (d : Nat) (uid : String) (rest : List Char) :
    ∀ f, 2 ≤ f →
      parseMembers f d ("\"user_id\":".data ++ (encodeString uid ++ '}' :: rest))
        = some ([("user_id".data, JValue.string uid.data)], rest) := by
  intro f hf
  obtain ⟨g, rfl⟩ : ∃ g, f = g + 2 := ⟨f - 2, by omega⟩
  exact parseMembers_last (g + 1) d "user_id".data (by decide) (encodeString uid) _ rest
    (parseValue_string g d uid _)
    (skipSpace_of_head _ _ (encodeString_head uid _) (by decide))

theorem encodeOmitEmpty_head (name s : String) (tail : List Char)
    (h : tail.head? = some '\"') : (encodeOmitEmpty name s ++ tail).head? = some '\"' := by
  by_cases hs : s = "" <;> simp [encodeOmitEmpty, hs, h]

theorem parseValue_user (d : Nat) (hd : d < maxNestingDepth) (u : MatrixUser) (rest : List Char) :
    ∀ f, 5 ≤ f → parseValue f d (encodeUser u ++ rest) = some (userJ u, rest) := by
  intro f hf
  obtain ⟨g, rfl⟩ : ∃ g, f = g + 1 := ⟨f - 1, by omega⟩
  have h3 : ("\"user_id\":".data ++ (encodeString u.UserID ++ '}' :: rest)).head? = some '\"' := rfl
  have h2 := encodeOmitEmpty_head "display_name" u.DisplayName _ h3
  have h1 := encodeOmitEmpty_head "avatar_url" u.AvatarURL _ h2
  have p3 := parseMembers_uid (d + 1) u.UserID rest
  have p2 := parseMembers_opt 2 (d + 1) "display_name" u.DisplayName _ _ _ (by decide)
    (skipSpace_of_head _ _ h3 (by decide)) p3
  have p1 := parseMembers_opt 3 (d + 1) "avatar_url" u.AvatarURL _ _ _ (by decide)
    (skipSpace_of_head _ _ h2 (by decide)) p2
  have hshape : encodeUser u ++ rest = '{' :: (encodeOmitEmpty "avatar_url" u.AvatarURL ++
      (encodeOmitEmpty "display_name" u.DisplayName ++
        ("\"user_id\":".data ++ (encodeString u.UserID ++ '}' :: rest)))) := by
    simp [encodeUser]
  rw [hshape, parseValue]
  simp only [List.head?_cons, List.tail_cons, ↓reduceIte, if_neg (Nat.not_le.mpr hd)]
  rw [skipSpace_of_head _ _ h1 (by decide), h1, p1 g (by omega)]
  simp [userJ, userMembers]

theorem encodeUser_head (u : MatrixUser) (rest : List Char) :
    (encodeUser u ++ rest).head? = some '{' := by
  simp [encodeUser]

theorem encodeUsers_head (u : MatrixUser) (us : List MatrixUser) (rest : List Char) :
    (encodeUsers u us ++ rest).head? = some '{' := by
  cases us <;> simp [encodeUsers, encodeUser]

theorem parseElems_users (d : Nat) (hd : d < maxNestingDepth) (rest : List Char) :
    ∀ (us : List MatrixUser) (u : MatrixUser) (f : Nat), us.length + 6 ≤ f →
      parseElems f d (encodeUsers u us ++ rest) = some (userJ u :: us.map userJ, rest) := by
  intro us
  induction us with
  | nil =>
    intro u f hf
    obtain ⟨g, rfl⟩ : ∃ g, f = g + 1 := ⟨f - 1, by omega⟩
    have hshape : encodeUsers u [] ++ rest = encodeUser u ++ ']' :: rest := by
      simp [encodeUsers]
    rw [hshape, parseElems, parseValue_user d hd u _ g (by simp at hf; omega)]
    simp only
    rw [skipSpace_of_not_space _ _ (by decide)]
    simp
  | cons v vs ih =>
    intro u f hf
    obtain ⟨g, rfl⟩ : ∃ g, f = g + 1 := ⟨f - 1, by omega⟩
    have hshape : encodeUsers u (v :: vs) ++ rest
        = encodeUser u ++ ',' :: (encodeUsers v vs ++ rest) := by
      simp [encodeUsers]
    rw [hshape, parseElems, parseValue_user d hd u _ g (by simp at hf; omega)]
    simp only
    rw [skipSpace_of_not_space _ _ (by decide)]
    simp only [List.head?_cons, List.tail_cons, ↓reduceIte]
    rw [skipSpace_of_head _ _ (encodeUsers_head v vs rest) (by decide),
      ih v g (by simp at hf; omega)]
    simp

theorem parseValue_results (d : Nat) (hd : d + 1 < maxNestingDepth)
    (rs : Option (List MatrixUser)) (rest : List Char) :
    ∀ f, (rs.getD []).length + 7 ≤ f →
      parseValue f d (encodeResults rs ++ rest) = some (resultsJ rs, rest) := by
  intro f hf
  obtain ⟨g, rfl⟩ : ∃ g, f = g + 1 := ⟨f - 1, by omega⟩
  cases rs with
  | none => exact parseValue_null g d rest
  | some us =>
    cases us with
    | nil =>
      rw [parseValue]
      simp [encodeResults, resultsJ, skipSpace, isSpace]
      omega
    | cons u us =>
      have hshape : encodeResults (some (u :: us)) ++ rest = '[' :: (encodeUsers u us ++ rest) := by
        simp [encodeResults]
      rw [hshape, parseValue]
      simp only [List.head?_cons, List.tail_cons, ↓reduceIte, Option.some.injEq, Char.reduceEq,
        if_neg (Nat.not_le.mpr (Nat.lt_of_succ_lt hd))]
      rw [skipSpace_of_head _ _ (encodeUsers_head u us rest) (by decide), encodeUsers_head,
        parseElems_users (d + 1) hd rest us u g (by simp at hf; omega)]
      simp [resultsJ]

theorem encodeUsers_length (u : MatrixUser) (us : List MatrixUser) :
    us.length + 1 ≤ (encodeUsers u us).length := by
  induction us generalizing u with
  | nil => simp [encodeUsers]
  | cons v vs ih =>
    have := ih v
    simp only [encodeUsers, List.length_append, List.length_cons]
    omega

theorem encodeResults_length (rs : Option (List MatrixUser)) :
    (rs.getD []).length ≤ (encodeResults rs).length := by
  cases rs with
  | none => simp
  | some us =>
    cases us with
    | nil => simp
    | cons u us =>
      have := encodeUsers_length u us
      simp only [encodeResults, Option.getD_some, List.length_cons]
      omega

theorem encodeResults_head_not_space (rs : Option (List MatrixUser)) (rest : List Char) :
    skipSpace (encodeResults rs ++ rest) = encodeResults rs ++ rest := by
  cases rs with
  | none => exact skipSpace_of_not_space _ _ (by decide)
  | some us =>
    cases us with
    | nil => exact skipSpace_of_not_space _ _ (by decide)
    | cons u us => exact skipSpace_of_not_space _ _ (by decide)

theorem encodeBool_skip (b : Bool) (rest : List Char) :
    skipSpace (encodeBool b ++ rest) = encodeBool b ++ rest := by
  cases b <;> exact skipSpace_of_not_space _ _ (by decide)

theorem parseDocument_marshalRunes (sr : MatrixSearchResult) :
    parseDocument (marshalRunes sr) = some (searchJ sr) := by
  have hshape : marshalRunes sr = '{' :: '\"' :: ("limited".data ++ '\"' :: ':' ::
      (encodeBool sr.Limited ++ ',' :: ('\"' :: ("results".data ++ '\"' :: ':' ::
        (encodeResults sr.Results ++ '}' :: []))))) := by
    simp [marshalRunes]
  have hlen : (sr.Results.getD []).length + 22 ≤ (marshalRunes sr).length := by
    have := encodeResults_length sr.Results
    rw [hshape]
    simp only [List.length_cons, List.length_append]
    omega
  obtain ⟨g, hg⟩ : ∃ g, 2 * (marshalRunes sr).length + 2 = g + 3 :=
    ⟨_, (Nat.sub_add_cancel (by omega)).symm⟩
  have hgl : (sr.Results.getD []).length + 7 ≤ g := by omega
  have pr := parseMembers_last g 1 "results".data (by decide) (encodeResults sr.Results)
    (resultsJ sr.Results) [] (parseValue_results 1 (by decide) sr.Results _ _ hgl)
    (encodeResults_head_not_space _ _)
  have pl := parseMembers_cons (g + 1) 1 "limited".data (by decide) (encodeBool sr.Limited)
    (JValue.bool sr.Limited) _ _ [] (parseValue_bool g 1 sr.Limited _) (encodeBool_skip _ _)
    (skipSpace_of_not_space _ _ (by decide)) pr
  rw [parseDocument, hg, hshape]
  rw [skipSpace_of_not_space _ _ (by decide), parseValue]
  simp only [List.head?_cons, List.tail_cons, ↓reduceIte]
  rw [skipSpace_of_not_space _ _ (by decide)]
  simp only [List.head?_cons, Option.some.injEq, Char.reduceEq, ↓reduceIte]
  rw [if_neg (by decide), pl]
  simp [searchJ, skipSpace]

/-! ## Decoding what the encoder writes -/

theorem string_mk_data (s : String) : String.mk s.data = s := rfl

theorem storeUser_userJ (u : MatrixUser) :
    storeUser MatrixUser.zero (userJ u) = Except.ok u := by
  obtain ⟨a, dn, uid⟩ := u
  have k1 : keyIs "avatar_url" "avatar_url".data = true := by decide
  have k2 : keyIs "avatar_url" "display_name".data = false := by decide
  have k3 : keyIs "display_name" "display_name".data = true := by decide
  have k4 : keyIs "avatar_url" "user_id".data = false := by decide
  have k5 : keyIs "display_name" "user_id".data = false := by decide
  have k6 : keyIs "user_id" "user_id".data = true := by decide
  by_cases ha : a = "" <;> by_cases hdn : dn = "" <;>
    simp [storeUser, userJ, userMembers, optMember, ha, hdn, storeUserMembers, k1, k2, k3, k4, k5,
      k6, storeString, MatrixUser.zero, string_mk_data]

theorem storeElems_userJ (us : List MatrixUser) :
    storeElems [] (us.map userJ) = Except.ok us := by
  induction us with
  | nil => rfl
  | cons u us ih =>
    have h := storeUser_userJ u
    simp only [List.map_cons, storeElems, List.headD_nil, List.tail_nil, h, ih]

theorem storeSearchResult_searchJ (sr : MatrixSearchResult) :
    storeSearchResult (searchJ sr) = Except.ok sr := by
  obtain ⟨b, rs⟩ := sr
  have k1 : keyIs "limited" "limited".data = true := by decide
  have k2 : keyIs "limited" "results".data = false := by decide
  have k3 : keyIs "results" "results".data = true := by decide
  cases rs with
  | none =>
    simp [storeSearchResult, searchJ, storeSearchMembers, k1, k2, k3, storeBool, resultsJ,
      storeResults, SliceState.nil]
  | some us =>
    cases us with
    | nil =>
      simp [storeSearchResult, searchJ, storeSearchMembers, k1, k2, k3, storeBool, resultsJ,
        storeResults, SliceState.nil]
    | cons u us =>
      have h := storeElems_userJ (u :: us)
      simp only [List.map_cons] at h
      simp [storeSearchResult, searchJ, storeSearchMembers, k1, k2, k3, storeBool, resultsJ,
        storeResults, SliceState.nil, h]

theorem unmarshalRunes_marshalRunes (sr : MatrixSearchResult) :
    unmarshalRunes (marshalRunes sr) = Except.ok sr := by
  simp only [unmarshalRunes, parseDocument_marshalRunes, storeSearchResult_searchJ]

/-- Decoding the bytes `json.Marshal` produces gives back the value. -/
theorem Unmarshal_Marshal (sr : MatrixSearchResult) (b : Bytes) (h : Marshal sr = Except.ok b) :
    Unmarshal b = Except.ok sr := by
  simp only [Marshal, Except.ok.injEq] at h
  subst h
  simp only [Unmarshal, utf8DecodeLossy_utf8Encode, unmarshalRunes_marshalRunes]

/-! ## The wrapper and the next handler -/

theorem Sink.commit_writes (s : Sink) (c : Int) : (s.commit c).writes = s.writes := by
  unfold Sink.commit; cases s.committed <;> rfl

theorem Sink.commit_headerCalls (s : Sink) (c : Int) :
    (s.commit c).headerCalls = s.headerCalls := by
  unfold Sink.commit; cases s.committed <;> rfl

theorem Sink.commit_flusher (s : Sink) (c : Int) : (s.commit c).flusher = s.flusher := by
  unfold Sink.commit; cases s.committed <;> rfl

theorem Sink.commit_header (s : Sink) (c : Int) : (s.commit c).header = s.header := by
  unfold Sink.commit; cases s.committed <;> rfl

/-- What one action of the handler leaves untouched, and what it appends. -/
theorem Op.run_frame (op : Op) (st : responseWriter × Request) :
    (op.run st).1.ResponseWriter.writes = st.1.ResponseWriter.writes ∧
    (op.run st).1.lastModified = st.1.lastModified ∧
    (op.run st).1.ResponseWriter.flusher = st.1.ResponseWriter.flusher ∧
    (op.run st).1.buffer = st.1.buffer ++ Handler.written [op] := by
  cases op with
  | header f => simp [Op.run, Handler.written]
  | request f => simp [Op.run, Handler.written]
  | writeHeader c =>
    simp only [Op.run, responseWriter.WriteHeader, Sink.WriteHeader, Handler.written,
      List.append_nil]
    split_ifs <;> simp [Sink.commit_writes, Sink.commit_flusher]
  | write p =>
    simp only [Op.run, responseWriter.Write, responseWriter.WriteHeader, Sink.WriteHeader,
      Handler.written, List.append_nil]
    split_ifs <;> simp [Sink.commit_writes, Sink.commit_flusher]
  | flush =>
    simp only [Op.run, responseWriter.Flush, Sink.Flush, Handler.written, List.append_nil]
    split_ifs <;> simp [Sink.commit_writes, Sink.commit_flusher]

theorem Handler.written_cons (op : Op) (ops : Handler) :
    Handler.written (op :: ops) = Handler.written [op] ++ Handler.written ops := by
  cases op <;> simp [Handler.written]

theorem Handler.ServeHTTP_cons (op : Op) (ops : Handler) (w : responseWriter) (req : Request) :
    Handler.ServeHTTP (op :: ops) w req
      = Handler.ServeHTTP ops (op.run (w, req)).1 (op.run (w, req)).2 := by
  simp [Handler.ServeHTTP]

/-- The handler writes nothing to the sink, and the buffer collects its writes. -/
theorem Handler.ServeHTTP_frame (next : Handler) :
    ∀ (w : responseWriter) (req : Request),
      (next.ServeHTTP w req).1.ResponseWriter.writes = w.ResponseWriter.writes ∧
      (next.ServeHTTP w req).1.lastModified = w.lastModified ∧
      (next.ServeHTTP w req).1.ResponseWriter.flusher = w.ResponseWriter.flusher ∧
      (next.ServeHTTP w req).1.buffer = w.buffer ++ next.written := by
  induction next with
  | nil => intro w req; simp [Handler.ServeHTTP, Handler.written]
  | cons op ops ih =>
    intro w req
    obtain ⟨h1, h2, h3, h4⟩ := ih (op.run (w, req)).1 (op.run (w, req)).2
    obtain ⟨g1, g2, g3, g4⟩ := Op.run_frame op (w, req)
    rw [Handler.ServeHTTP_cons, Handler.written_cons op ops]
    refine ⟨by rw [h1, g1], by rw [h2, g2], by rw [h3, g3], ?_⟩
    rw [h4, g4, List.append_assoc]

theorem afterNext_buffer (r : matrixSearchFilter) (rw : Sink) (req : Request) :
    (r.afterNext rw req).1.buffer = r.next.written := by
  have := (Handler.ServeHTTP_frame r.next
    { buffer := [], lastModified := r.lastModified, wroteHeader := false, ResponseWriter := rw }
    req).2.2.2
  simpa [matrixSearchFilter.afterNext] using this

theorem afterNext_writes (r : matrixSearchFilter) (rw : Sink) (req : Request) :
    (r.afterNext rw req).1.ResponseWriter.writes = rw.writes :=
  (Handler.ServeHTTP_frame r.next _ req).1

theorem ServeHTTP_eq (r : matrixSearchFilter) (rw : Sink) (req : Request) :
    r.ServeHTTP rw req =
      if passThrough (r.afterNext rw req).2
          ((r.afterNext rw req).1.ResponseWriter.header.Get "Content-Encoding") then
        (r.afterNext rw req).1.ResponseWriter.Write r.next.written
      else
        match filterResponse r.next.written r.UserIDRegex with
        | Except.error _ => (r.afterNext rw req).1.ResponseWriter
        | Except.ok filtered => (r.afterNext rw req).1.ResponseWriter.Write filtered := by
  rw [← afterNext_buffer r rw req]
  rfl

/-! ## Searching and anchoring -/

/-- The search succeeds exactly when a match starts after some prefix `pre` of
the subject; the rune before that position is the last rune of `pre`. -/
theorem searchFrom_iff (re : Regexp) :
    ∀ (cs : List Char) (prev : Option Char),
      searchFrom re prev cs = true ↔
        ∃ pre suf, cs = pre ++ suf ∧ re.ends ⟨(pre.getLast?).or prev, suf⟩ ≠ [] := by
  intro cs
  induction cs with
  | nil =>
    intro prev
    simp only [searchFrom, Bool.not_eq_true', List.isEmpty_eq_false]
    constructor
    · intro h
      exact ⟨[], [], rfl, by simpa using h⟩
    · rintro ⟨pre, suf, hps, h⟩
      obtain ⟨rfl, rfl⟩ : pre = [] ∧ suf = [] := by simpa using hps.symm
      simpa using h
  | cons c r ih =>
    intro prev
    simp only [searchFrom, Bool.or_eq_true, Bool.not_eq_true', List.isEmpty_eq_false, ih]
    constructor
    · rintro (h | ⟨pre, suf, hps, h⟩)
      · exact ⟨[], c :: r, rfl, by simpa using h⟩
      · refine ⟨c :: pre, suf, by rw [hps]; rfl, ?_⟩
        cases pre with
        | nil => simpa using h
        | cons a pre => simpa [List.getLast?_cons_cons] using h
    · rintro ⟨pre, suf, hps, h⟩
      cases pre with
      | nil =>
        left
        simp only [List.nil_append] at hps
        subst hps
        simpa using h
      | cons a pre =>
        right
        simp only [List.cons_append, List.cons.injEq] at hps
        obtain ⟨rfl, rfl⟩ := hps
        refine ⟨pre, suf, rfl, ?_⟩
        cases pre with
        | nil => simpa using h
        | cons b pre => simpa [List.getLast?_cons_cons] using h

theorem searchFrom_beginText (e : Regexp) :
    ∀ (cs : List Char) (c : Char),
      searchFrom (Regexp.concat Regexp.beginText e) (some c) cs = false := by
  intro cs
  induction cs with
  | nil => intro c; simp [searchFrom, Regexp.ends]
  | cons d r ih => intro c; simp [searchFrom, Regexp.ends, ih]

theorem filter_flatMap_ends (f : Pos → List Pos) (g : Pos → Bool) (l : List Pos) :
    (l.flatMap f).filter g = l.flatMap (fun q => (f q).filter g) := by
  induction l with
  | nil => rfl
  | cons q l ih => rw [List.flatMap_cons, List.flatMap_cons, List.filter_append, ih]

/-- A sequence that ends with `$` matches where the sequence before the `$`
matches up to the end of the subject. -/
theorem ends_sequence_endText (items : List Regexp) :
    ∀ p : Pos, (Regexp.sequence (items ++ [Regexp.endText])).ends p
      = ((Regexp.sequence items).ends p).filter (fun q => q.rest.isEmpty) := by
  induction items with
  | nil =>
    intro p
    by_cases hp : p.rest = []
    · simp [Regexp.sequence, Regexp.ends, hp]
    · simp [Regexp.sequence, Regexp.ends, hp]
  | cons a items ih =>
    intro p
    simp only [List.cons_append, Regexp.sequence, Regexp.ends]
    rw [filter_flatMap_ends]
    apply List.flatMap_congr
    intro q _
    exact ih q

/-- A sequence between `^` and `$` is found in a string exactly when the
sequence matches the string from its first to its last rune. -/
theorem MatchString_anchored (items : List Regexp) (s : String) :
    (Regexp.sequence (Regexp.beginText :: items ++ [Regexp.endText])).MatchString s
      = (Regexp.sequence items).matchesWhole s := by
  have hstart : ∀ cs : List Char,
      (Regexp.sequence (Regexp.beginText :: items ++ [Regexp.endText])).ends ⟨none, cs⟩
        = ((Regexp.sequence items).ends ⟨none, cs⟩).filter (fun q => q.rest.isEmpty) := by
    intro cs
    rw [← ends_sequence_endText]
    simp [Regexp.sequence, Regexp.ends]
  have hne : ∀ l : List Pos, (!(l.filter (fun q => q.rest.isEmpty)).isEmpty)
      = l.any (fun q => q.rest.isEmpty) := by
    intro l
    induction l with
    | nil => rfl
    | cons q l ih =>
      rw [List.filter_cons, List.any_cons]
      by_cases hq : q.rest.isEmpty = true
      · simp [hq]
      · simp only [hq, Bool.false_eq_true, if_false, Bool.false_or]
        exact ih
  have key : ∀ cs : List Char,
      searchFrom (Regexp.sequence (Regexp.beginText :: items ++ [Regexp.endText])) none cs
        = ((Regexp.sequence items).ends ⟨none, cs⟩).any (fun q => q.rest.isEmpty) := by
    intro cs
    cases cs with
    | nil => rw [searchFrom, hstart, hne]
    | cons c r =>
      rw [searchFrom, hstart, hne]
      have hb : searchFrom (Regexp.sequence (Regexp.beginText :: items ++ [Regexp.endText]))
          (some c) r = false :=
        searchFrom_beginText (Regexp.sequence (items ++ [Regexp.endText])) r c
      rw [hb, Bool.or_false]
  exact key s.data

/-- More fuel than the subject has runes left changes nothing. -/
theorem iterate_fuel (f : Pos → List Pos) :
    ∀ (n m : Nat) (p : Pos), p.rest.length < n → p.rest.length < m →
      iterate f n p = iterate f m p := by
  intro n
  induction n with
  | zero => intro m p h; omega
  | succ n ih =>
    intro m p hn hm
    obtain ⟨m1, rfl⟩ : ∃ m1, m = m1 + 1 := ⟨m - 1, by omega⟩
    simp only [iterate, List.cons.injEq, true_and]
    apply List.flatMap_congr
    intro q hq
    have hlt : q.rest.length < p.rest.length := by
      simpa using (List.mem_filter.mp hq).2
    exact ih m1 q (by omega) (by omega)

/-- The star is the fixed point one expects: a match of `a*` is empty, or a
match of `a` that consumes something followed by a match of `a*`. -/
theorem ends_star (a : Regexp) (p : Pos) :
    (Regexp.star a).ends p
      = p :: ((a.ends p).filter (fun q => decide (q.rest.length < p.rest.length))).flatMap
          (fun q => (Regexp.star a).ends q) := by
  simp only [Regexp.ends, iterate, List.cons.injEq, true_and]
  apply List.flatMap_congr
  intro q hq
  have hlt : q.rest.length < p.rest.length := by
    simpa using (List.mem_filter.mp hq).2
  exact iterate_fuel (fun q1 => a.ends q1) p.rest.length (q.rest.length + 1) q hlt (by omega)

/-! ## The fuel of the parser is enough

Whatever some amount of fuel parses, twice the number of characters consumed
parses too; `parseDocument` therefore rejects no input for lack of fuel. -/

theorem skipSpace_length (cs : List Char) : (skipSpace cs).length ≤ cs.length := by
  induction cs with
  | nil => simp [skipSpace]
  | cons c cs ih =>
    rw [skipSpace]
    split_ifs
    · simp only [List.length_cons]; omega
    · exact le_refl _

theorem tail_length_of_head (cs : List Char) (c : Char) (h : cs.head? = some c) :
    cs.tail.length + 1 = cs.length := by
  cases cs with
  | nil => simp at h
  | cons a r => simp

theorem scanString_length_aux :
    ∀ (n : Nat) (cs : List Char) (us : List StrUnit) (r : List Char), cs.length ≤ n →
      scanString cs = some (us, r) → r.length < cs.length := by
  intro n
  induction n with
  | zero =>
    intro cs us r hn h
    have : cs = [] := List.length_eq_zero.mp (Nat.le_zero.mp hn)
    subst this
    simp [scanString] at h
  | succ n ih =>
    intro cs us r hn h
    rw [scanString.eq_def] at h
    split at h
    · simp at h
    · rename_i c rest
      simp only [List.length_cons] at hn ⊢
      split_ifs at h with h1 h2 h3
      · simp only [Option.some.injEq, Prod.mk.injEq] at h
        rw [← h.2]; omega
      · split at h
        · simp at h
        · rename_i e rest1
          split_ifs at h with h4
          · split at h
            · rename_i a b c2 d rest2
              split at h
              · split at h
                · rename_i us1 r1 hs
                  simp only [Option.some.injEq, Prod.mk.injEq] at h
                  have := ih rest2 us1 r1 (by simp only [List.length_cons] at hn; omega) hs
                  rw [← h.2]
                  simp only [List.length_cons]
                  omega
                · simp at h
              · simp at h
            · simp at h
          · split at h
            · split at h
              · rename_i us1 r1 hs
                simp only [Option.some.injEq, Prod.mk.injEq] at h
                have := ih rest1 us1 r1 (by simp only [List.length_cons] at hn; omega) hs
                rw [← h.2]
                simp only [List.length_cons]
                omega
              · simp at h
            · simp at h
      · split at h
        · rename_i us1 r1 hs
          simp only [Option.some.injEq, Prod.mk.injEq] at h
          have := ih rest us1 r1 (by omega) hs
          rw [← h.2]
          omega
        · simp at h

theorem parseString_length (cs s r : List Char) (h : parseString cs = some (s, r)) :
    r.length < cs.length := by
  simp only [parseString] at h
  split at h
  · rename_i us r1 hs
    simp only [Option.some.injEq, Prod.mk.injEq] at h
    rw [← h.2]
    exact scanString_length_aux cs.length cs us r1 (le_refl _) hs
  · simp at h

theorem skipDigits_length (cs : List Char) : (skipDigits cs).length ≤ cs.length := by
  induction cs with
  | nil => simp [skipDigits]
  | cons c cs ih =>
    rw [skipDigits]
    split_ifs
    · simp only [List.length_cons]; omega
    · exact le_refl _

theorem scanDigits1_length (cs r : List Char) (h : scanDigits1 cs = some r) :
    r.length < cs.length := by
  cases cs with
  | nil => simp [scanDigits1] at h
  | cons c cs =>
    simp only [scanDigits1] at h
    split_ifs at h
    simp only [Option.some.injEq] at h
    have := skipDigits_length cs
    rw [← h]
    simp only [List.length_cons]
    omega

theorem scanExponent_length (cs r : List Char) (h : scanExponent cs = some r) :
    r.length ≤ cs.length := by
  cases cs with
  | nil => simp [scanExponent] at h; simp [← h]
  | cons c cs =>
    simp only [scanExponent] at h
    split_ifs at h
    · split at h
      · simp at h
      · rename_i s cs1
        split_ifs at h
        · have := scanDigits1_length _ _ h
          simp only [List.length_cons] at this ⊢
          omega
        · have := scanDigits1_length _ _ h
          simp only [List.length_cons] at this ⊢
          omega
    · simp only [Option.some.injEq] at h
      rw [← h]

theorem scanFraction_length (cs r : List Char) (h : scanFraction cs = some r) :
    r.length ≤ cs.length := by
  cases cs with
  | nil => simp [scanFraction] at h; simp [← h]
  | cons c cs =>
    simp only [scanFraction] at h
    split_ifs at h
    · split at h
      · rename_i r1 hd
        have h1 := scanDigits1_length _ _ hd
        have h2 := scanExponent_length _ _ h
        simp only [List.length_cons]
        omega
      · simp at h
    · exact scanExponent_length _ _ h

theorem scanInteger_length (cs r : List Char) (h : scanInteger cs = some r) :
    r.length < cs.length := by
  cases cs with
  | nil => simp [scanInteger] at h
  | cons c cs =>
    simp only [scanInteger] at h
    split_ifs at h
    · have := scanFraction_length _ _ h
      simp only [List.length_cons]
      omega
    · have h1 := scanFraction_length _ _ h
      have h2 := skipDigits_length cs
      simp only [List.length_cons]
      omega

theorem scanNumber_length (cs r : List Char) (h : scanNumber cs = some r) :
    r.length < cs.length := by
  cases cs with
  | nil => simp [scanNumber] at h
  | cons c cs =>
    simp only [scanNumber] at h
    split_ifs at h
    · have := scanInteger_length _ _ h
      simp only [List.length_cons]
      omega
    · exact scanInteger_length _ _ h

theorem scanLiteral_length (cs : List Char) (v : JValue) (r : List Char)
    (h : scanLiteral cs = some (v, r)) : r.length < cs.length := by
  cases cs with
  | nil => simp [scanLiteral] at h
  | cons c rest =>
    simp only [scanLiteral] at h
    split_ifs at h
    · split at h
      · rename_i s r1 hs
        simp only [Option.some.injEq, Prod.mk.injEq] at h
        have := parseString_length _ _ _ hs
        rw [← h.2]
        simp only [List.length_cons]
        omega
      · simp at h
    all_goals first
      | (simp only [Option.some.injEq, Prod.mk.injEq] at h
         rw [← h.2]
         simp only [List.length_cons, List.length_drop]
         omega)
      | (split at h
         · rename_i r1 hs
           simp only [Option.some.injEq, Prod.mk.injEq] at h
           have := scanNumber_length _ _ hs
           rw [← h.2]
           exact this
         · simp at h)

theorem skipSpace_tail_length (r : List Char) (c : Char) (h : (skipSpace r).head? = some c) :
    (skipSpace r).tail.length + 1 ≤ r.length := by
  have h1 := tail_length_of_head _ _ h
  have h2 := skipSpace_length r
  omega

theorem skipSpace_skipSpace_tail_length (r : List Char) (c : Char)
    (h : (skipSpace r).head? = some c) :
    (skipSpace (skipSpace r).tail).length + 1 ≤ r.length := by
  have h1 := skipSpace_tail_length r c h
  have h2 := skipSpace_length (skipSpace r).tail
  omega

theorem parse_fuel_enough :
    ∀ f : Nat,
      (∀ d cs v r, parseValue f d cs = some (v, r) →
        r.length < cs.length ∧
        ∀ g, 2 * cs.length ≤ g + 1 + 2 * r.length → parseValue g d cs = some (v, r)) ∧
      (∀ d cs vs r, parseElems f d cs = some (vs, r) →
        r.length + 2 ≤ cs.length ∧
        ∀ g, 2 * cs.length ≤ g + 2 + 2 * r.length → parseElems g d cs = some (vs, r)) ∧
      (∀ d cs ms r, parseMembers f d cs = some (ms, r) →
        r.length + 2 ≤ cs.length ∧
        ∀ g, 2 * cs.length ≤ g + 2 + 2 * r.length → parseMembers g d cs = some (ms, r)) := by
  intro f
  induction f with
  | zero =>
    refine ⟨?_, ?_, ?_⟩
    · intro d cs v r h; simp [parseValue] at h
    · intro d cs vs r h; simp [parseElems] at h
    · intro d cs ms r h; simp [parseMembers] at h
  | succ f ih =>
    obtain ⟨ihv, ihe, ihm⟩ := ih
    refine ⟨?_, ?_, ?_⟩
    · -- values
      intro d cs v r h
      rw [parseValue] at h
      by_cases hb : cs.head? = some '{'
      · have htl := tail_length_of_head cs _ hb
        have hsk := skipSpace_length cs.tail
        rw [if_pos hb] at h
        by_cases hd : maxNestingDepth ≤ d
        · simp [hd] at h
        · rw [if_neg hd] at h
          by_cases he : (skipSpace cs.tail).head? = some '}'
          · rw [if_pos he] at h
            simp only [Option.some.injEq, Prod.mk.injEq] at h
            obtain ⟨hv, hr⟩ := h
            subst hv
            have h3 := tail_length_of_head _ _ he
            subst hr
            refine ⟨by omega, ?_⟩
            intro g hg
            obtain ⟨g1, rfl⟩ : ∃ g1, g = g1 + 1 := ⟨g - 1, by omega⟩
            rw [parseValue, if_pos hb, if_neg hd, if_pos he]
          · rw [if_neg he] at h
            cases hp : parseMembers f (d + 1) (skipSpace cs.tail) with
            | none => simp [hp] at h
            | some res =>
              obtain ⟨ms, r1⟩ := res
              simp only [hp, Option.some.injEq, Prod.mk.injEq] at h
              obtain ⟨hv, hr⟩ := h
              subst hv
              subst hr
              obtain ⟨h4, h5⟩ := ihm _ _ _ _ hp
              refine ⟨by omega, ?_⟩
              intro g hg
              obtain ⟨g1, rfl⟩ : ∃ g1, g = g1 + 1 := ⟨g - 1, by omega⟩
              rw [parseValue, if_pos hb, if_neg hd, if_neg he, h5 g1 (by omega)]
      · rw [if_neg hb] at h
        by_cases hb2 : cs.head? = some '['
        · have htl := tail_length_of_head cs _ hb2
          have hsk := skipSpace_length cs.tail
          rw [if_pos hb2] at h
          by_cases hd : maxNestingDepth ≤ d
          · simp [hd] at h
          · rw [if_neg hd] at h
            by_cases he : (skipSpace cs.tail).head? = some ']'
            · rw [if_pos he] at h
              simp only [Option.some.injEq, Prod.mk.injEq] at h
              obtain ⟨hv, hr⟩ := h
              subst hv
              have h3 := tail_length_of_head _ _ he
              subst hr
              refine ⟨by omega, ?_⟩
              intro g hg
              obtain ⟨g1, rfl⟩ : ∃ g1, g = g1 + 1 := ⟨g - 1, by omega⟩
              rw [parseValue, if_neg hb, if_pos hb2, if_neg hd, if_pos he]
            · rw [if_neg he] at h
              cases hp : parseElems f (d + 1) (skipSpace cs.tail) with
              | none => simp [hp] at h
              | some res =>
                obtain ⟨vs, r1⟩ := res
                simp only [hp, Option.some.injEq, Prod.mk.injEq] at h
                obtain ⟨hv, hr⟩ := h
                subst hv
                subst hr
                obtain ⟨h4, h5⟩ := ihe _ _ _ _ hp
                refine ⟨by omega, ?_⟩
                intro g hg
                obtain ⟨g1, rfl⟩ : ∃ g1, g = g1 + 1 := ⟨g - 1, by omega⟩
                rw [parseValue, if_neg hb, if_pos hb2, if_neg hd, if_neg he, h5 g1 (by omega)]
        · rw [if_neg hb2] at h
          have hl := scanLiteral_length cs v r h
          refine ⟨hl, ?_⟩
          intro g hg
          obtain ⟨g1, rfl⟩ : ∃ g1, g = g1 + 1 := ⟨g - 1, by omega⟩
          rw [parseValue, if_neg hb, if_neg hb2, h]
    · -- array elements
      intro d cs vs r h
      rw [parseElems] at h
      cases hp : parseValue f d cs with
      | none => simp [hp] at h
      | some res =>
        obtain ⟨v, r1⟩ := res
        simp only [hp] at h
        obtain ⟨h1, h2⟩ := ihv _ _ _ _ hp
        by_cases hc : (skipSpace r1).head? = some ','
        · rw [if_pos hc] at h
          have hs := skipSpace_skipSpace_tail_length r1 _ hc
          cases hq : parseElems f d (skipSpace (skipSpace r1).tail) with
          | none => simp [hq] at h
          | some res2 =>
            obtain ⟨vs2, r2⟩ := res2
            simp only [hq, Option.some.injEq, Prod.mk.injEq] at h
            obtain ⟨hv, hr⟩ := h
            subst hv
            subst hr
            obtain ⟨h3, h4⟩ := ihe _ _ _ _ hq
            refine ⟨by omega, ?_⟩
            intro g hg
            obtain ⟨g1, rfl⟩ : ∃ g1, g = g1 + 1 := ⟨g - 1, by omega⟩
            rw [parseElems, h2 g1 (by omega)]
            simp only
            rw [if_pos hc, h4 g1 (by omega)]
        · rw [if_neg hc] at h
          by_cases he : (skipSpace r1).head? = some ']'
          · rw [if_pos he] at h
            have hs := skipSpace_tail_length r1 _ he
            simp only [Option.some.injEq, Prod.mk.injEq] at h
            obtain ⟨hv, hr⟩ := h
            subst hv
            subst hr
            refine ⟨by omega, ?_⟩
            intro g hg
            obtain ⟨g1, rfl⟩ : ∃ g1, g = g1 + 1 := ⟨g - 1, by omega⟩
            rw [parseElems, h2 g1 (by omega)]
            simp only
            rw [if_neg hc, if_pos he]
          · simp [he] at h
    · -- object members
      intro d cs ms r h
      rw [parseMembers] at h
      by_cases hb : cs.head? = some '\"'
      · have htl := tail_length_of_head cs _ hb
        rw [if_pos hb] at h
        cases hk : parseString cs.tail with
        | none => simp [hk] at h
        | some res0 =>
          obtain ⟨k, r0⟩ := res0
          simp only [hk] at h
          have hkl := parseString_length _ _ _ hk
          by_cases hcol : (skipSpace r0).head? = some ':'
          · rw [if_pos hcol] at h
            have hs0 := skipSpace_skipSpace_tail_length r0 _ hcol
            cases hp : parseValue f d (skipSpace (skipSpace r0).tail) with
            | none => simp [hp] at h
            | some res =>
              obtain ⟨v, r1⟩ := res
              simp only [hp] at h
              obtain ⟨h1, h2⟩ := ihv _ _ _ _ hp
              by_cases hc : (skipSpace r1).head? = some ','
              · rw [if_pos hc] at h
                have hs := skipSpace_skipSpace_tail_length r1 _ hc
                cases hq : parseMembers f d (skipSpace (skipSpace r1).tail) with
                | none => simp [hq] at h
                | some res2 =>
                  obtain ⟨ms2, r2⟩ := res2
                  simp only [hq, Option.some.injEq, Prod.mk.injEq] at h
                  obtain ⟨hv, hr⟩ := h
                  subst hv
                  subst hr
                  obtain ⟨h3, h4⟩ := ihm _ _ _ _ hq
                  refine ⟨by omega, ?_⟩
                  intro g hg
                  obtain ⟨g1, rfl⟩ : ∃ g1, g = g1 + 1 := ⟨g - 1, by omega⟩
                  rw [parseMembers, if_pos hb, hk]
                  simp only
                  rw [if_pos hcol, h2 g1 (by omega)]
                  simp only
                  rw [if_pos hc, h4 g1 (by omega)]
              · rw [if_neg hc] at h
                by_cases he : (skipSpace r1).head? = some '}'
                · rw [if_pos he] at h
                  have hs := skipSpace_tail_length r1 _ he
                  simp only [Option.some.injEq, Prod.mk.injEq] at h
                  obtain ⟨hv, hr⟩ := h
                  subst hv
                  subst hr
                  refine ⟨by omega, ?_⟩
                  intro g hg
                  obtain ⟨g1, rfl⟩ : ∃ g1, g = g1 + 1 := ⟨g - 1, by omega⟩
                  rw [parseMembers, if_pos hb, hk]
                  simp only
                  rw [if_pos hcol, h2 g1 (by omega)]
                  simp only
                  rw [if_neg hc, if_pos he]
                · simp [he] at h
          · simp [hcol] at h
      · simp [hb] at h

/-- No input fails to parse for lack of fuel: whatever `parseValue` accepts
with some amount of fuel it accepts, with the same result, with the fuel that
`parseDocument` supplies. -/
theorem parseDocument_fuel_enough (cs : List Char) (f d : Nat) (v : JValue) (r : List Char)
    (h : parseValue f d (skipSpace cs) = some (v, r)) :
    parseValue (2 * cs.length + 2) d (skipSpace cs) = some (v, r) := by
  have hs := skipSpace_length cs
  exact ((parse_fuel_enough f).1 d _ v r h).2 _ (by omega)

/-! ## The claims -/

set_option maxRecDepth 100000

theorem filterResponse_of_decoded (userIDRegex : Regexp) (bodyBytes : Bytes)
    (searchRes : MatrixSearchResult) (h : Unmarshal bodyBytes = Except.ok searchRes) :
    filterResponse bodyBytes userIDRegex
      = Except.ok (utf8Encode (marshalRunes
          { Limited := searchRes.Limited,
            Results := searchRes.Results.map
              (List.filter (fun u => userIDRegex.MatchString u.UserID)) })) := by
  simp only [filterResponse, h, filterResults_eq, Marshal]

theorem filter_filter_results (userIDRegex : Regexp) (rs : Option (List MatrixUser)) :
    (rs.map (List.filter (fun u => userIDRegex.MatchString u.UserID))).map
        (List.filter (fun u => userIDRegex.MatchString u.UserID))
      = rs.map (List.filter (fun u => userIDRegex.MatchString u.UserID)) := by
  cases rs <;> simp

/-- C1.  If the captured body decodes as a `MatrixSearchResult`, `filterResponse`
succeeds and returns the JSON encoding of the result whose `limited` is the
decoded one and whose `results` are the decoded records whose `user_id` the
pattern matches, in their original order and unchanged (`List.filter`; a nil
slice stays nil).  On the `exampleBody` of the tests with the pattern of the
tests the output is exactly the expected body of the first test case. -/
theorem filterResponse_keeps_exactly_the_matching_records (userIDRegex : Regexp)
    (bodyBytes : Bytes) (searchRes : MatrixSearchResult)
    (hdecode : Unmarshal bodyBytes = Except.ok searchRes) :
    (∃ out : MatrixSearchResult, ∃ encoded : Bytes,
      filterResponse bodyBytes userIDRegex = Except.ok encoded ∧
      Marshal out = Except.ok encoded ∧
      out.Limited = searchRes.Limited ∧
      out.Results = searchRes.Results.map
        (List.filter (fun u => userIDRegex.MatchString u.UserID)) ∧
      (∀ kept, out.Results = some kept → ∃ all, searchRes.Results = some all ∧
        kept.Sublist all ∧
        (∀ u ∈ kept, userIDRegex.MatchString u.UserID = true) ∧
        (∀ u ∈ all, u ∉ kept → userIDRegex.MatchString u.UserID = false))) ∧
    (compileFragment examplePattern = some (Except.ok exampleRegexp) ∧
      filterResponse (bytesOf exampleBody) exampleRegexp = Except.ok (bytesOf expectedBody)) := by
  refine ⟨⟨{ Limited := searchRes.Limited,
              Results := searchRes.Results.map
                (List.filter (fun u => userIDRegex.MatchString u.UserID)) }, _,
    filterResponse_of_decoded userIDRegex bodyBytes searchRes hdecode, rfl, rfl, rfl, ?_⟩,
    by decide, by decide⟩
  · intro kept hk
    cases hr : searchRes.Results with
    | none => simp [hr] at hk
    | some all =>
      simp only [hr, Option.map_some', Option.some.injEq] at hk
      subst hk
      refine ⟨all, rfl, List.filter_sublist all, ?_, ?_⟩
      · intro u hu
        exact (List.mem_filter.mp hu).2
      · intro u hu hnot
        by_contra hm
        exact hnot (List.mem_filter.mpr ⟨hu, by simpa using hm⟩)

/-- The `exampleBody` of the tests decodes to its three records, and filtering
it with the pattern of the tests leaves the record of `@abc:example.com`. -/
theorem filterResponse_keeps_exactly_the_matching_records_witness :
    Unmarshal (bytesOf exampleBody) = Except.ok exampleResult ∧
    ((∃ out : MatrixSearchResult, ∃ encoded : Bytes,
      filterResponse (bytesOf exampleBody) exampleRegexp = Except.ok encoded ∧
      Marshal out = Except.ok encoded ∧
      out.Limited = exampleResult.Limited ∧
      out.Results = exampleResult.Results.map
        (List.filter (fun u => exampleRegexp.MatchString u.UserID)) ∧
      (∀ kept, out.Results = some kept → ∃ all, exampleResult.Results = some all ∧
        kept.Sublist all ∧
        (∀ u ∈ kept, exampleRegexp.MatchString u.UserID = true) ∧
        (∀ u ∈ all, u ∉ kept → exampleRegexp.MatchString u.UserID = false))) ∧
    (compileFragment examplePattern = some (Except.ok exampleRegexp) ∧
      filterResponse (bytesOf exampleBody) exampleRegexp = Except.ok (bytesOf expectedBody))) :=
  ⟨by decide,
    filterResponse_keeps_exactly_the_matching_records exampleRegexp (bytesOf exampleBody)
      exampleResult (by decide)⟩

/-- C7.  Filtering is idempotent on bytes: if `filterResponse` succeeds on a
body with output `b1`, it succeeds on `b1` with the same pattern and returns
`b1` again.  On the decoded values, `b1` decodes to the filtered result, and
filtering that result again changes neither `limited` nor `results`. -/
theorem filterResponse_idempotent (userIDRegex : Regexp) (bodyBytes b1 : Bytes)
    (h : filterResponse bodyBytes userIDRegex = Except.ok b1) :
    filterResponse b1 userIDRegex = Except.ok b1 ∧
    ∃ searchRes : MatrixSearchResult,
      Unmarshal bodyBytes = Except.ok searchRes ∧
      Unmarshal b1 = Except.ok
        { searchRes with Results := filterResults userIDRegex searchRes.Results } ∧
      filterResults userIDRegex (filterResults userIDRegex searchRes.Results)
        = filterResults userIDRegex searchRes.Results := by
  cases hd : Unmarshal bodyBytes with
  | error e => simp [filterResponse, hd] at h
  | ok searchRes =>
    have h1 := filterResponse_of_decoded userIDRegex bodyBytes searchRes hd
    rw [h] at h1
    simp only [Except.ok.injEq] at h1
    have hdec : Unmarshal b1 = Except.ok
        { Limited := searchRes.Limited,
          Results := searchRes.Results.map
            (List.filter (fun u => userIDRegex.MatchString u.UserID)) } :=
      Unmarshal_Marshal _ _ (by rw [h1]; rfl)
    have h2 := filterResponse_of_decoded userIDRegex b1 _ hdec
    simp only [filter_filter_results] at h2
    refine ⟨by rw [h2, ← h1], searchRes, rfl, ?_, ?_⟩
    · rw [hdec, filterResults_eq]
    · simp only [filterResults_eq, filter_filter_results]

/-- Filtering the expected body of the first test case gives it back. -/
theorem filterResponse_idempotent_witness :
    filterResponse (bytesOf exampleBody) exampleRegexp = Except.ok (bytesOf expectedBody) ∧
    (filterResponse (bytesOf expectedBody) exampleRegexp = Except.ok (bytesOf expectedBody) ∧
    ∃ searchRes : MatrixSearchResult,
      Unmarshal (bytesOf exampleBody) = Except.ok searchRes ∧
      Unmarshal (bytesOf expectedBody) = Except.ok
        { searchRes with Results := filterResults exampleRegexp searchRes.Results } ∧
      filterResults exampleRegexp (filterResults exampleRegexp searchRes.Results)
        = filterResults exampleRegexp searchRes.Results) :=
  ⟨by decide,
    filterResponse_idempotent exampleRegexp (bytesOf exampleBody) (bytesOf expectedBody)
      (by decide)⟩

/-- C8.  Whatever `regexp.Compile` answers, `New` returns an error, and with it
no handler, exactly when the configured `UserIDRegex` does not compile, and the
error carries the pattern and the cause; when it compiles, `New` returns the
handler holding the compiled pattern, the given next handler, the given name
and the configured `lastModified` flag.  The pattern of `TestNew` with the
unterminated bracket expression is rejected for its missing closing bracket,
the pattern of the tests compiles to its syntax tree, and so `New` rejects the
one and accepts the other. -/
theorem New_fails_iff_pattern_does_not_compile
    (compile : String → Except CompileError Regexp) (next : Handler) (config : Config)
    (name : String) :
    ((∃ err, New compile next config name = Except.error err) ↔
      ∃ err, compile config.UserIDRegex = Except.error err) ∧
    (∀ regex, compile config.UserIDRegex = Except.ok regex →
      New compile next config name = Except.ok
        { name := name, next := next, UserIDRegex := regex,
          lastModified := config.LastModified }) ∧
    (∀ err, compile config.UserIDRegex = Except.error err →
      New compile next config name
        = Except.error { expr := config.UserIDRegex, cause := err }) ∧
    compileFragment brokenPattern = some (Except.error CompileError.missingBracket) ∧
    compileFragment examplePattern = some (Except.ok exampleRegexp) ∧
    ((∀ expr result, compileFragment expr = some result → compile expr = result) →
      New compile next { config with UserIDRegex := brokenPattern } name
        = Except.error { expr := brokenPattern, cause := CompileError.missingBracket } ∧
      New compile next { config with UserIDRegex := examplePattern } name
        = Except.ok { name := name, next := next, UserIDRegex := exampleRegexp,
                      lastModified := config.LastModified }) := by
  have hbad : compileFragment brokenPattern
      = some (Except.error CompileError.missingBracket) := by decide
  have hgood : compileFragment examplePattern = some (Except.ok exampleRegexp) := by decide
  refine ⟨?_, ?_, ?_, hbad, hgood, ?_⟩
  · cases hc : compile config.UserIDRegex with
    | error e => simp [New, hc]
    | ok re => simp [New, hc]
  · intro regex hc
    simp [New, hc]
  · intro err hc
    simp [New, hc]
  · intro h
    refine ⟨?_, ?_⟩
    · simp only [New, h _ _ hbad]
    · simp only [New, h _ _ hgood]

/-- With a compiler that agrees with `regexp.Compile` on the two patterns of
`TestNew`, `New` rejects the first and accepts the second. -/
theorem New_fails_iff_pattern_does_not_compile_witness :
    (∀ expr result, compileFragment expr = some result → compileOrReject expr = result) ∧
    New compileOrReject (testHandler "" "application/json" [])
        { LastModified := true, UserIDRegex := brokenPattern } "matrixSearchFilter"
      = Except.error { expr := brokenPattern, cause := CompileError.missingBracket } ∧
    New compileOrReject (testHandler "" "application/json" [])
        { LastModified := true, UserIDRegex := examplePattern } "matrixSearchFilter"
      = Except.ok { name := "matrixSearchFilter", next := testHandler "" "application/json" [],
                    UserIDRegex := exampleRegexp, lastModified := true } :=
  ⟨fun expr result h => by simp [compileOrReject, h],
    (New_fails_iff_pattern_does_not_compile compileOrReject (testHandler "" "application/json" [])
      { LastModified := true, UserIDRegex := "" } "matrixSearchFilter").2.2.2.2.2
      (fun expr result h => by simp [compileOrReject, h])⟩

/-- C10 does not hold for a body without a `results` key: the body decodes, no
record is retained, and the output encodes `results` as `null`, so the text
`"results":[]` does not occur in it. -/
theorem filterResponse_null_results :
    Unmarshal (bytesOf bodyWithoutResults) = Except.ok { Limited := false, Results := none } ∧
    filterResponse (bytesOf bodyWithoutResults) exampleRegexp
      = Except.ok (bytesOf nullResultsBody) ∧
    ¬ (bytesOf emptyResultsText <:+: bytesOf nullResultsBody) := by
  refine ⟨by decide, by decide, by decide⟩

/-- C10, amended.  If the body decodes and its `results` is an array (the
decoded slice is not nil) none of whose records the pattern matches, the output
is `\x7b"limited":…,"results":[]\x7d`, which contains `"results":[]`.  (When
`results` is absent or `null` the decoded slice is nil.) -/
theorem filterResponse_empty_results (userIDRegex : Regexp) (bodyBytes : Bytes)
    (limited : Bool) (records : List MatrixUser)
    (hdecode : Unmarshal bodyBytes = Except.ok { Limited := limited, Results := some records })
    (hnone : ∀ u ∈ records, userIDRegex.MatchString u.UserID = false) :
    filterResponse bodyBytes userIDRegex = Except.ok (emptyResultsBody limited) ∧
    bytesOf emptyResultsText <:+: emptyResultsBody limited := by
  have hf : records.filter (fun u => userIDRegex.MatchString u.UserID) = [] := by
    rw [List.filter_eq_nil_iff]
    intro u hu
    simp [hnone u hu]
  refine ⟨?_, ?_⟩
  · rw [filterResponse_of_decoded userIDRegex bodyBytes _ hdecode]
    simp only [Option.map_some', hf]
    rfl
  · cases limited
    · exact ⟨bytesOf "\x7b\"limited\":false,", bytesOf "\x7d", by decide⟩
    · exact ⟨bytesOf "\x7b\"limited\":true,", bytesOf "\x7d", by decide⟩

/-- A body whose only record the pattern does not match is answered with an
empty `results` array. -/
theorem filterResponse_empty_results_witness :
    (Unmarshal (bytesOf bodyWithStranger) = Except.ok
      { Limited := true,
        Results := some [{ AvatarURL := "", DisplayName := "", UserID := "@hij:bar.foo" }] }) ∧
    (filterResponse (bytesOf bodyWithStranger) exampleRegexp = Except.ok (emptyResultsBody true) ∧
      bytesOf emptyResultsText <:+: emptyResultsBody true) :=
  ⟨by decide,
    filterResponse_empty_results exampleRegexp (bytesOf bodyWithStranger) true
      [{ AvatarURL := "", DisplayName := "", UserID := "@hij:bar.foo" }] (by decide) (by decide)⟩

/-- C4 does not hold: the pattern `example\.com` does not match the whole of
`@mallory:example.com.evil.org`, only a part of it, and the record is retained
all the same. -/
theorem unanchored_pattern_retains_partial_match :
    compileFragment unanchoredPattern = some (Except.ok unanchoredRegexp) ∧
    unanchoredRegexp.matchesWhole "@mallory:example.com.evil.org" = false ∧
    unanchoredRegexp.MatchString "@mallory:example.com.evil.org" = true ∧
    filterResponse (bytesOf bodyWithLookalike) unanchoredRegexp
      = Except.ok (bytesOf bodyWithLookalike) := by
  refine ⟨by decide, by decide, by decide, by decide⟩

/-- C4, amended.  The filter retains a record if and only if the pattern
matches somewhere in its `user_id`: `MatchString` is a search, it succeeds
exactly when a match starts after some prefix of the string.  The match covers
the whole string only where the pattern itself is anchored: a pattern whose
compiled form is a sequence that begins with `^` and ends with `$` retains
exactly the records whose entire `user_id` matches the sequence between the two
anchors.  The pattern of the tests compiles to such a sequence; the alternation
`^a|b$` does not, and retains `a:evil.org`, of which it matches only a part. -/
theorem filter_retains_iff_pattern_found (userIDRegex : Regexp) (items : List Regexp)
    (records : List MatrixUser) (u : MatrixUser) (s : String) :
    (∃ kept, filterResults userIDRegex (some records) = some kept ∧
      (u ∈ kept ↔ u ∈ records ∧ userIDRegex.MatchString u.UserID = true)) ∧
    (userIDRegex.MatchString s = true ↔
      ∃ pre suf, s.data = pre ++ suf ∧ userIDRegex.ends ⟨pre.getLast?, suf⟩ ≠ []) ∧
    ((Regexp.sequence (Regexp.beginText :: items ++ [Regexp.endText])).MatchString s
      = (Regexp.sequence items).matchesWhole s) ∧
    (∃ kept,
      filterResults (Regexp.sequence (Regexp.beginText :: items ++ [Regexp.endText]))
        (some records) = some kept ∧
      (u ∈ kept ↔ u ∈ records ∧ (Regexp.sequence items).matchesWhole u.UserID = true)) ∧
    compileFragment examplePattern
      = some (Except.ok (Regexp.sequence (Regexp.beginText :: exampleItems ++ [Regexp.endText]))) ∧
    (compileFragment alternationPattern = some (Except.ok alternationRegexp) ∧
      alternationRegexp ≠ Regexp.sequence (Regexp.beginText :: items ++ [Regexp.endText]) ∧
      alternationRegexp.MatchString "a:evil.org" = true ∧
      alternationRegexp.matchesWhole "a:evil.org" = false) := by
  refine ⟨⟨_, filterResults_eq userIDRegex (some records), ?_⟩, ?_, MatchString_anchored items s,
    ⟨_, filterResults_eq _ (some records), ?_⟩, by decide, by decide, ?_, by decide, by decide⟩
  rotate_right
  · simp [alternationRegexp, Regexp.sequence]
  · simp [List.mem_filter]
  · rw [Regexp.MatchString, searchFrom_iff]
    simp
  · simp only [Option.map_some', Option.some.injEq, exists_eq_left', List.mem_filter,
      MatchString_anchored]

/-! ## The claims about the wrapper and `ServeHTTP` -/

theorem passThrough_eq_true (req : Request) (contentEncoding : String) :
    passThrough req contentEncoding = true ↔
      (req.Method ≠ "POST" ∨ req.Path ≠ "/_matrix/client/v3/user_directory/search" ∨
        req.Header.Get "Content-Type" ≠ "application/json" ∨
        (contentEncoding ≠ "" ∧ contentEncoding ≠ "identity")) := by
  simp only [passThrough, searchPath, Bool.or_eq_true, Bool.and_eq_true, decide_eq_true_eq,
    or_assoc]

theorem Sink.Write_writes (s : Sink) (p : Bytes) : (s.Write p).writes = s.writes ++ [p] := rfl

/-- C2.  If, when the next handler has returned, the request method is not
`POST`, or the request path is not the search path, or the request's
`Content-Type` is not `application/json`, or the response's `Content-Encoding`
is neither empty nor `identity`, then `ServeHTTP` makes exactly one `Write` to
the real sink, with exactly the bytes captured from the next handler (the
arguments of its `Write` calls, concatenated), whatever those bytes are: the
result does not depend on whether they decode. -/
theorem ServeHTTP_passes_through_unchanged (r : matrixSearchFilter) (rw : Sink) (req : Request)
    (hcond : (r.afterNext rw req).2.Method ≠ "POST" ∨
      (r.afterNext rw req).2.Path ≠ "/_matrix/client/v3/user_directory/search" ∨
      (r.afterNext rw req).2.Header.Get "Content-Type" ≠ "application/json" ∨
      ((r.afterNext rw req).1.ResponseWriter.header.Get "Content-Encoding" ≠ "" ∧
        (r.afterNext rw req).1.ResponseWriter.header.Get "Content-Encoding" ≠ "identity")) :
    (r.afterNext rw req).1.buffer = r.next.written ∧
    r.ServeHTTP rw req = (r.afterNext rw req).1.ResponseWriter.Write r.next.written ∧
    (r.ServeHTTP rw req).writes = rw.writes ++ [r.next.written] ∧
    (r.ServeHTTP rw req).body = rw.body ++ r.next.written := by
  have hp := (passThrough_eq_true _ _).mpr hcond
  have hs : r.ServeHTTP rw req = (r.afterNext rw req).1.ResponseWriter.Write r.next.written := by
    rw [ServeHTTP_eq, if_pos hp]
  refine ⟨afterNext_buffer r rw req, hs, ?_, ?_⟩
  · rw [hs, Sink.Write_writes, afterNext_writes]
  · rw [Sink.body, hs, Sink.Write_writes, afterNext_writes]
    simp [Sink.body]

/-- The second and third test cases: with request content type `text`, and
with response encoding `gzip`, the body `foo is the new bar`, which is not
JSON, reaches the sink unchanged in one write. -/
theorem ServeHTTP_passes_through_unchanged_witness :
    Unmarshal (bytesOf "foo is the new bar") = Except.error UnmarshalError.syntaxError ∧
    (((testFilter false "" "text" (bytesOf "foo is the new bar")).afterNext
        (Sink.fresh true) testRequest).2.Header.Get "Content-Type" ≠ "application/json") ∧
    ((testFilter false "" "text" (bytesOf "foo is the new bar")).ServeHTTP (Sink.fresh true)
        testRequest).writes = [bytesOf "foo is the new bar"] ∧
    (((testFilter false "gzip" "application/json" (bytesOf "foo is the new bar")).afterNext
        (Sink.fresh true) testRequest).1.ResponseWriter.header.Get "Content-Encoding" = "gzip") ∧
    ((testFilter false "gzip" "application/json" (bytesOf "foo is the new bar")).ServeHTTP
        (Sink.fresh true) testRequest).writes = [bytesOf "foo is the new bar"] :=
  ⟨by decide, by decide,
    (ServeHTTP_passes_through_unchanged (testFilter false "" "text" (bytesOf "foo is the new bar"))
      (Sink.fresh true) testRequest (Or.inr (Or.inr (Or.inl (by decide))))).2.2.1,
    by decide,
    (ServeHTTP_passes_through_unchanged
      (testFilter false "gzip" "application/json" (bytesOf "foo is the new bar"))
      (Sink.fresh true) testRequest
      (Or.inr (Or.inr (Or.inr ⟨by decide, by decide⟩)))).2.2.1⟩

/-- C3.  If filtering applies when the next handler has returned (method `POST`,
the search path, request content type `application/json`, response encoding
empty or `identity`) and the captured body does not decode, `filterResponse`
returns the decode error and `ServeHTTP` leaves the real sink exactly as the
next handler left it: no `Write` reaches it, the captured bytes are not passed
through. -/
theorem ServeHTTP_drops_undecodable_body (r : matrixSearchFilter) (rw : Sink) (req : Request)
    (err : UnmarshalError)
    (hmethod : (r.afterNext rw req).2.Method = "POST")
    (hpath : (r.afterNext rw req).2.Path = "/_matrix/client/v3/user_directory/search")
    (htype : (r.afterNext rw req).2.Header.Get "Content-Type" = "application/json")
    (hencoding : (r.afterNext rw req).1.ResponseWriter.header.Get "Content-Encoding" = "" ∨
      (r.afterNext rw req).1.ResponseWriter.header.Get "Content-Encoding" = "identity")
    (hdecode : Unmarshal r.next.written = Except.error err) :
    (r.afterNext rw req).1.buffer = r.next.written ∧
    filterResponse r.next.written r.UserIDRegex = Except.error (FilterError.decode err) ∧
    r.ServeHTTP rw req = (r.afterNext rw req).1.ResponseWriter ∧
    (r.ServeHTTP rw req).writes = rw.writes ∧
    (r.ServeHTTP rw req).body = rw.body := by
  have hp : ¬ passThrough (r.afterNext rw req).2
      ((r.afterNext rw req).1.ResponseWriter.header.Get "Content-Encoding") = true := by
    rw [passThrough_eq_true]
    rcases hencoding with h | h <;> simp [hmethod, hpath, htype, h]
  have hf : filterResponse r.next.written r.UserIDRegex
      = Except.error (FilterError.decode err) := by
    simp only [filterResponse, hdecode]
  have hs : r.ServeHTTP rw req = (r.afterNext rw req).1.ResponseWriter := by
    rw [ServeHTTP_eq, if_neg hp, hf]
  refine ⟨afterNext_buffer r rw req, hf, hs, ?_, ?_⟩
  · rw [hs, afterNext_writes]
  · rw [Sink.body, hs, afterNext_writes, Sink.body]

/-- The decode-failure example: the body `not json` behind the search route
is answered with the decode error, and the sink receives no write. -/
theorem ServeHTTP_drops_undecodable_body_witness :
    (testFilter false "" "application/json" (bytesOf "not json")).next.written
      = bytesOf "not json" ∧
    Unmarshal (bytesOf "not json") = Except.error UnmarshalError.syntaxError ∧
    filterResponse (bytesOf "not json") exampleRegexp
      = Except.error (FilterError.decode UnmarshalError.syntaxError) ∧
    ((testFilter false "" "application/json" (bytesOf "not json")).ServeHTTP (Sink.fresh true)
        testRequest).writes = [] ∧
    ((testFilter false "" "application/json" (bytesOf "not json")).ServeHTTP (Sink.fresh true)
        testRequest).body = [] :=
  ⟨by decide, by decide,
    (ServeHTTP_drops_undecodable_body (testFilter false "" "application/json" (bytesOf "not json"))
      (Sink.fresh true) testRequest UnmarshalError.syntaxError (by decide) (by decide) (by decide)
      (Or.inl (by decide)) (by decide)).2.1,
    (ServeHTTP_drops_undecodable_body (testFilter false "" "application/json" (bytesOf "not json"))
      (Sink.fresh true) testRequest UnmarshalError.syntaxError (by decide) (by decide) (by decide)
      (Or.inl (by decide)) (by decide)).2.2.2.1,
    (ServeHTTP_drops_undecodable_body (testFilter false "" "application/json" (bytesOf "not json"))
      (Sink.fresh true) testRequest UnmarshalError.syntaxError (by decide) (by decide) (by decide)
      (Or.inl (by decide)) (by decide)).2.2.2.2⟩

/-- C5 fails on the code.  A next handler that sets `Content-Length` and calls
neither `WriteHeader` nor `Write` never reaches the stripping, which happens
in `responseWriter.WriteHeader` only: `ServeHTTP` passes the empty body of a
`GET` request through, and that write commits status 200 with `Content-Length`
among the headers.  The same happens when the handler flushes before its first
write, and when it sets the header after announcing `103 Early Hints`.  On the
path of the tests (headers set, then `WriteHeader(200)`) the header is
stripped. -/
theorem content_length_committed_without_finalization :
    (headersOnlyFilter.ServeHTTP (Sink.fresh true) getRequest).headerCalls = [] ∧
    (headersOnlyFilter.ServeHTTP (Sink.fresh true) getRequest).writes = [[]] ∧
    (headersOnlyFilter.ServeHTTP (Sink.fresh true) getRequest).committed.map
        (fun p => (p.1, p.2 "Content-Length")) = some (200, some ["18"]) ∧
    (flushFirstFilter.ServeHTTP (Sink.fresh true) getRequest).committed.map
        (fun p => (p.1, p.2 "Content-Length")) = some (200, some ["5"]) ∧
    (earlyHintsFilter.ServeHTTP (Sink.fresh true) getRequest).committed.map
        (fun p => (p.1, p.2 "Content-Length")) = some (200, some ["5"]) ∧
    ((testFilter false "" "application/json" (bytesOf exampleBody)).ServeHTTP (Sink.fresh true)
        testRequest).committed.map (fun p => (p.1, p.2 "Content-Length")) = some (200, none) := by
  refine ⟨by decide, by decide, by decide, by decide, by decide, by decide⟩

/-- C6 fails on the code.  With the `lastModified` option false, a next handler
that sets `Last-Modified` and calls neither `WriteHeader` nor `Write` never
reaches the stripping in `responseWriter.WriteHeader`: the write by which
`ServeHTTP` passes the empty body of a `GET` request through commits status 200
with `Last-Modified` among the headers.  The same happens when the handler
flushes before its first write, and when it sets the header after announcing
`103 Early Hints`.  On the path of the tests (headers set, then
`WriteHeader(200)`) the header is stripped when the option is false and kept
when it is true. -/
theorem last_modified_committed_without_finalization :
    headersOnlyFilter.lastModified = false ∧
    (headersOnlyFilter.ServeHTTP (Sink.fresh true) getRequest).committed.map
        (fun p => (p.1, p.2 "Last-Modified"))
      = some (200, some ["Thu, 02 Jun 2016 06:01:08 GMT"]) ∧
    flushFirstFilter.lastModified = false ∧
    (flushFirstFilter.ServeHTTP (Sink.fresh true) getRequest).committed.map
        (fun p => (p.1, p.2 "Last-Modified"))
      = some (200, some ["Thu, 02 Jun 2016 06:01:08 GMT"]) ∧
    earlyHintsFilter.lastModified = false ∧
    (earlyHintsFilter.ServeHTTP (Sink.fresh true) getRequest).committed.map
        (fun p => (p.1, p.2 "Last-Modified"))
      = some (200, some ["Thu, 02 Jun 2016 06:01:08 GMT"]) ∧
    ((testFilter false "" "application/json" (bytesOf exampleBody)).ServeHTTP (Sink.fresh true)
        testRequest).committed.map (fun p => (p.1, p.2 "Last-Modified")) = some (200, none) ∧
    ((testFilter true "identity" "application/json" (bytesOf exampleBody)).ServeHTTP
        (Sink.fresh true) testRequest).committed.map (fun p => (p.1, p.2 "Last-Modified"))
      = some (200, some ["Thu, 02 Jun 2016 06:01:08 GMT"]) := by
  refine ⟨rfl, by decide, rfl, by decide, rfl, by decide, by decide, by decide⟩

theorem Write_after_header (w : responseWriter) (p : Bytes) (h : w.wroteHeader = true) :
    (w.Write p).1.wroteHeader = true ∧
    (w.Write p).1.ResponseWriter = w.ResponseWriter ∧
    (w.Write p).1.buffer = w.buffer ++ p := by
  simp [responseWriter.Write, h]

theorem foldl_Write_after_header (chunks : List Bytes) :
    ∀ w : responseWriter, w.wroteHeader = true →
      (chunks.foldl (fun w p => (w.Write p).1) w).wroteHeader = true ∧
      (chunks.foldl (fun w p => (w.Write p).1) w).ResponseWriter = w.ResponseWriter ∧
      (chunks.foldl (fun w p => (w.Write p).1) w).buffer = w.buffer ++ chunks.flatten := by
  induction chunks with
  | nil => intro w h; simp [h]
  | cons p ps ih =>
    intro w h
    obtain ⟨g1, g2, g3⟩ := Write_after_header w p h
    obtain ⟨h1, h2, h3⟩ := ih (w.Write p).1 g1
    rw [List.foldl_cons]
    refine ⟨h1, by rw [h2, g2], ?_⟩
    rw [h3, g3, List.flatten_cons, List.append_assoc]

theorem Write_fresh (w : responseWriter) (p : Bytes) (h : w.wroteHeader = false) :
    (w.Write p).1.wroteHeader = (w.WriteHeader 200).wroteHeader ∧
    (w.Write p).1.ResponseWriter = (w.WriteHeader 200).ResponseWriter ∧
    (w.Write p).1.buffer = (w.WriteHeader 200).buffer ++ p := by
  simp [responseWriter.Write, h]

theorem WriteHeader_fresh (lastModified : Bool) (s : Sink) (statusCode : Int) :
    (responseWriter.WriteHeader
        { buffer := [], lastModified := lastModified, wroteHeader := false, ResponseWriter := s }
        statusCode).wroteHeader = true ∧
    (responseWriter.WriteHeader
        { buffer := [], lastModified := lastModified, wroteHeader := false, ResponseWriter := s }
        statusCode).buffer = [] ∧
    (responseWriter.WriteHeader
        { buffer := [], lastModified := lastModified, wroteHeader := false, ResponseWriter := s }
        statusCode).ResponseWriter.writes = s.writes ∧
    (responseWriter.WriteHeader
        { buffer := [], lastModified := lastModified, wroteHeader := false, ResponseWriter := s }
        statusCode).ResponseWriter.headerCalls = s.headerCalls ++ [statusCode] ∧
    (responseWriter.WriteHeader
        { buffer := [], lastModified := lastModified, wroteHeader := false, ResponseWriter := s }
        statusCode).ResponseWriter.header = stripHeaders lastModified s.header := by
  cases lastModified <;> by_cases hc : isInformational statusCode = true <;>
    simp [responseWriter.WriteHeader, Sink.WriteHeader, Sink.commit_writes, Sink.commit_header,
      Sink.commit_headerCalls, stripHeaders, hc]

/-- C9.  On a fresh wrapper, after an optional explicit `WriteHeader` and any
sequence of `Write` calls: the real sink has received no `Write`, and the
buffer is the concatenation of the chunks in call order.  If any call was made,
the real sink's `WriteHeader` has been called exactly once, with the explicit
status code if there is one and with 200 (by the first `Write`) otherwise, on
headers stripped once, and `wroteHeader` is true; if no call was made the sink
is untouched.  Every `Write(p)` returns `len(p)` and no error, and a `Write` on
a wrapper whose `wroteHeader` is true leaves `wroteHeader` true and the real
sink, headers included, untouched. -/
theorem interceptor_buffers_and_finalizes_once (lastModified : Bool) (s : Sink)
    (explicit : Option Int) (chunks : List Bytes) :
    (writeAll lastModified s explicit chunks).ResponseWriter.writes = s.writes ∧
    (writeAll lastModified s explicit chunks).buffer = chunks.flatten ∧
    (explicit.isSome = true ∨ chunks ≠ [] →
      (writeAll lastModified s explicit chunks).ResponseWriter.headerCalls
        = s.headerCalls ++ [explicit.getD 200] ∧
      (writeAll lastModified s explicit chunks).ResponseWriter.header
        = stripHeaders lastModified s.header ∧
      (writeAll lastModified s explicit chunks).wroteHeader = true) ∧
    (explicit = none ∧ chunks = [] →
      (writeAll lastModified s explicit chunks).ResponseWriter = s ∧
      (writeAll lastModified s explicit chunks).wroteHeader = false) ∧
    (∀ (w : responseWriter) (p : Bytes), (w.Write p).2 = (p.length, none)) ∧
    (∀ (w : responseWriter) (p : Bytes), w.wroteHeader = true →
      (w.Write p).1.wroteHeader = true ∧
      (w.Write p).1.ResponseWriter = w.ResponseWriter ∧
      (w.Write p).1.buffer = w.buffer ++ p) := by
  have hlater : ∀ (w : responseWriter) (p : Bytes), w.wroteHeader = true →
      (w.Write p).1.wroteHeader = true ∧
      (w.Write p).1.ResponseWriter = w.ResponseWriter ∧
      (w.Write p).1.buffer = w.buffer ++ p := Write_after_header
  cases explicit with
  | some statusCode =>
    obtain ⟨h1, h2, h3, h4, h5⟩ := WriteHeader_fresh lastModified s statusCode
    obtain ⟨f1, f2, f3⟩ := foldl_Write_after_header chunks _ h1
    simp only [writeAll]
    rw [f1, f2, f3, h2, h3, h4, h5]
    exact ⟨rfl, by simp, fun _ => ⟨rfl, rfl, rfl⟩, fun h => by simp at h, fun _ _ => rfl, hlater⟩
  | none =>
    cases chunks with
    | nil =>
      exact ⟨rfl, rfl, fun h => by simp at h, fun _ => ⟨rfl, rfl⟩, fun _ _ => rfl, hlater⟩
    | cons p ps =>
      obtain ⟨h1, h2, h3, h4, h5⟩ := WriteHeader_fresh lastModified s 200
      obtain ⟨g1, g2, g3⟩ := Write_fresh
        { buffer := [], lastModified := lastModified, wroteHeader := false, ResponseWriter := s }
        p rfl
      obtain ⟨f1, f2, f3⟩ := foldl_Write_after_header ps _ (g1.trans h1)
      simp only [writeAll, List.foldl_cons]
      rw [f1, f2, f3, g2, g3, h2, h3, h4, h5]
      exact ⟨rfl, by simp, fun _ => ⟨rfl, rfl, rfl⟩, fun h => by simp at h, fun _ _ => rfl,
        hlater⟩

/-- Two chunks written without an explicit `WriteHeader`: the first `Write`
finalizes the headers with status 200, the second does not, and the buffer
holds both chunks. -/
theorem interceptor_buffers_and_finalizes_once_witness :
    (writeAll false (Sink.fresh true) none [bytesOf "foo ", bytesOf "bar"]).ResponseWriter.writes
      = [] ∧
    (writeAll false (Sink.fresh true) none [bytesOf "foo ", bytesOf "bar"]).buffer
      = bytesOf "foo bar" ∧
    (writeAll false (Sink.fresh true) none
      [bytesOf "foo ", bytesOf "bar"]).ResponseWriter.headerCalls = [200] ∧
    (writeAll false (Sink.fresh true) none [bytesOf "foo ", bytesOf "bar"]).wroteHeader = true :=
  ⟨(interceptor_buffers_and_finalizes_once false (Sink.fresh true) none
      [bytesOf "foo ", bytesOf "bar"]).1,
    by decide,
    ((interceptor_buffers_and_finalizes_once false (Sink.fresh true) none
      [bytesOf "foo ", bytesOf "bar"]).2.2.1 (Or.inr (by decide))).1,
    ((interceptor_buffers_and_finalizes_once false (Sink.fresh true) none
      [bytesOf "foo ", bytesOf "bar"]).2.2.1 (Or.inr (by decide))).2.2⟩
end MatrixSearchFilter
